import Mathlib

/-!
Verification of the Nine Men's Morris core (rules engine, game state machine, search).

Shallow embedding of `src/morris/rules.py`, `src/morris/game_state.py` and
`src/morris/ai.py`.  Python lists are Lean `List`s; Python `int` is `Int`
(in-hand counters can go negative in some code paths, so they are `Int`);
Python `Optional[int]` is `Option Int` / `Option Nat`.

Board positions are natural-number indices.  Python raises `IndexError` on an
out-of-range board access; here out-of-range reads return `EMPTY` and
out-of-range writes are no-ops (`List.getD` / `List.set`), and every theorem
that depends on board accesses carries the in-bounds side conditions
(`MoveOK`, reachability), so the divergence is never exercised.

The board topology tables `MILLS` and `ADJACENT` live in
`src/morris/constants.py`, which is not part of the provided sources; they are
modelled from the spec (24 positions in three nested squares, 16 straight
three-in-a-row lines, fixed adjacency of 2-4 neighbours) using the standard
index layout for this game.
-/

namespace Morris

/-- Modelled from the spec: `EMPTY` from `src/morris/constants.py` (absent from src/). -/
def EMPTY : Int := 0

/-- Modelled from the spec: `PLAYER_WHITE` from `src/morris/constants.py` (absent from src/). -/
def PLAYER_WHITE : Int := 1

/-- Modelled from the spec: `PLAYER_BLACK` from `src/morris/constants.py` (absent from src/). -/
def PLAYER_BLACK : Int := -1

/-- Modelled from the spec: `STARTING_STONES_PER_PLAYER` from `src/morris/constants.py`
(absent from src/): each side starts with 9 stones in hand. -/
def STARTING_STONES_PER_PLAYER : Int := 9

/-- Modelled from the spec: the 16 mill lines of the fixed 24-point
three-nested-squares board (`MILLS` in `src/morris/constants.py`, absent from src/). -/
def MILLS : List (Nat × Nat × Nat) :=
  [(0, 1, 2), (3, 4, 5), (6, 7, 8), (9, 10, 11), (12, 13, 14), (15, 16, 17),
   (18, 19, 20), (21, 22, 23),
   (0, 9, 21), (3, 10, 18), (6, 11, 15), (1, 4, 7), (16, 19, 22), (8, 12, 17),
   (5, 13, 20), (2, 14, 23)]

/-- Modelled from the spec: the adjacency table of the 24-point board
(`ADJACENT` in `src/morris/constants.py`, absent from src/). -/
def ADJACENT : List (List Nat) :=
  [[1, 9], [0, 2, 4], [1, 14],
   [4, 10], [1, 3, 5, 7], [4, 13],
   [7, 11], [4, 6, 8], [7, 12],
   [0, 10, 21], [3, 9, 11, 18], [6, 10, 15],
   [8, 13, 17], [5, 12, 14, 20], [2, 13, 23],
   [11, 16], [15, 17, 19], [12, 16],
   [10, 19], [16, 18, 20, 22], [13, 19],
   [9, 22], [19, 21, 23], [14, 22]]

/-- Board access `board[idx]`; out of range reads give `EMPTY` (Python would raise). -/
def boardGet (board : List Int) (idx : Nat) : Int := board.getD idx EMPTY

/-- The three positions of a mill-table entry, in order. -/
def lineOf (t : Nat × Nat × Nat) : List Nat := [t.1, t.2.1, t.2.2]

/-- Embeds `positions_in_mill` from `src/morris/rules.py`: the first mill triplet
containing `idx` that is fully occupied by the occupant of `idx`, else `none`. -/
def positions_in_mill (board : List Int) (idx : Nat) : Option (List Nat) :=
  let player := boardGet board idx
  if player = EMPTY then none
  else
    (MILLS.find? fun t =>
      decide (idx ∈ lineOf t) &&
        ((boardGet board t.1 == player) && (boardGet board t.2.1 == player) &&
          (boardGet board t.2.2 == player))).map lineOf

/-- Embeds `forms_mill` from `src/morris/rules.py`: placing/moving `player` at `idx`
forms a mill (the loop returns at the first line that qualifies). -/
def forms_mill (board : List Int) (idx : Nat) (player : Int) : Bool :=
  MILLS.any fun t =>
    decide (idx ∈ lineOf t) &&
      ((lineOf t).all fun p => if p ≠ idx then boardGet board p == player else true) &&
      ((lineOf t).all fun p => decide (p = idx) || (boardGet board p == player))

/-- Embeds `legal_removals` from `src/morris/rules.py`: indices of opponent pieces
that may be removed after a mill; pieces outside mills are preferred. -/
def legal_removals (board : List Int) (opponent : Int) : List Nat :=
  let opponent_positions :=
    (List.range board.length).filter fun i => boardGet board i == opponent
  if opponent_positions = [] then []
  else
    let not_in_mill :=
      opponent_positions.filter fun i => (positions_in_mill board i).isNone
    if not_in_mill = [] then opponent_positions else not_in_mill

/-- Game phase; the code only ever distinguishes `"placing"` from anything else, and
only stores `"placing"` or `"moving"` (`src/morris/game_state.py`, `Phase`). -/
inductive Phase where
  | placing
  | moving
deriving DecidableEq

/-- Embeds the `Move` dataclass of `src/morris/game_state.py`. -/
structure Move where
  player : Int
  from_idx : Option Nat := none
  to_idx : Option Nat := none
  remove_idx : Option Nat := none
deriving DecidableEq

/-- One history snapshot: the 7-tuple pushed by `GameState.push_history`. -/
structure Snapshot where
  board : List Int
  phase : Phase
  to_move : Int
  white_in_hand : Int
  black_in_hand : Int
  removal_pending : Bool
  winner : Option Int
deriving DecidableEq

/-- Embeds the event dictionaries appended to `GameState.events`. -/
inductive Event where
  | removed (player : Int) (idx : Nat)
  | placed (player : Int) (toIdx : Nat)
  | formed_mill (player : Int) (atIdx : Nat)
  | moved (player : Int) (fromIdx toIdx : Nat)
  | phase_change (fromPhase toPhase : Phase)
  | game_over (winner : Option Int)
deriving DecidableEq

/-- Embeds the `GameState` dataclass of `src/morris/game_state.py`.  The Python
undo/redo stacks push/pop at the list's end; here the head of the list is the
top of the stack. -/
structure GameState where
  board : List Int
  phase : Phase
  to_move : Int
  white_in_hand : Int
  black_in_hand : Int
  removal_pending : Bool
  winner : Option Int
  history : List Snapshot
  redo_stack : List Snapshot
  events : List Event
deriving DecidableEq

/-- The freshly initialized state (`GameState()` / `reset`). -/
def initState : GameState where
  board := List.replicate 24 EMPTY
  phase := .placing
  to_move := PLAYER_WHITE
  white_in_hand := STARTING_STONES_PER_PLAYER
  black_in_hand := STARTING_STONES_PER_PLAYER
  removal_pending := false
  winner := none
  history := []
  redo_stack := []
  events := []

/-- Embeds `GameState.clone`: copies the core fields, intentionally dropping
history, redo stack and events. -/
def clone (s : GameState) : GameState where
  board := s.board
  phase := s.phase
  to_move := s.to_move
  white_in_hand := s.white_in_hand
  black_in_hand := s.black_in_hand
  removal_pending := s.removal_pending
  winner := s.winner
  history := []
  redo_stack := []
  events := []

/-- Embeds `GameState.current_in_hand`. -/
def current_in_hand (s : GameState) : Int :=
  if s.to_move = PLAYER_WHITE then s.white_in_hand else s.black_in_hand

/-- Embeds `GameState.set_current_in_hand`. -/
def set_current_in_hand (s : GameState) (value : Int) : GameState :=
  if s.to_move = PLAYER_WHITE then { s with white_in_hand := value }
  else { s with black_in_hand := value }

/-- Embeds `GameState.num_pieces`. -/
def num_pieces (s : GameState) (player : Int) : Nat :=
  s.board.count player

/-- Embeds `GameState.is_flying`. -/
def is_flying (s : GameState) (player : Int) : Bool :=
  num_pieces s player = 3 && s.phase ≠ .placing

/-- The snapshot of the current state used by `push_history`, `undo` and `redo`. -/
def mkSnap (s : GameState) : Snapshot where
  board := s.board
  phase := s.phase
  to_move := s.to_move
  white_in_hand := s.white_in_hand
  black_in_hand := s.black_in_hand
  removal_pending := s.removal_pending
  winner := s.winner

/-- Embeds `GameState.push_history`: push a snapshot and clear the redo stack. -/
def push_history (s : GameState) : GameState :=
  { s with history := mkSnap s :: s.history, redo_stack := [] }

/-- Restores the snapshot fields into a state (the tuple unpacking in undo/redo). -/
def restoreSnap (s : GameState) (p : Snapshot) : GameState :=
  { s with board := p.board, phase := p.phase, to_move := p.to_move,
           white_in_hand := p.white_in_hand, black_in_hand := p.black_in_hand,
           removal_pending := p.removal_pending, winner := p.winner }

/-- Embeds `GameState.undo`. -/
def undo (s : GameState) : GameState × Bool :=
  match s.history with
  | [] => (s, false)
  | prev :: rest =>
      ({ restoreSnap s prev with
            history := rest, redo_stack := mkSnap s :: s.redo_stack }, true)

/-- Embeds `GameState.redo`. -/
def redo (s : GameState) : GameState × Bool :=
  match s.redo_stack with
  | [] => (s, false)
  | next :: rest =>
      ({ restoreSnap s next with
            history := mkSnap s :: s.history, redo_stack := rest }, true)

/-- Embeds `GameState.legal_moves`. -/
def legal_moves (s : GameState) : List Move :=
  if s.winner ≠ none then []
  else if s.removal_pending then
    let opponent := if s.to_move = PLAYER_BLACK then PLAYER_WHITE else PLAYER_BLACK
    (legal_removals s.board opponent).map fun i =>
      { player := s.to_move, remove_idx := some i }
  else if s.phase = .placing then
    ((List.range s.board.length).filter fun i => boardGet s.board i == EMPTY).map
      fun i => { player := s.to_move, to_idx := some i }
  else
    let flying := is_flying s s.to_move
    (List.range s.board.length).flatMap fun i =>
      if boardGet s.board i == s.to_move then
        if flying then
          ((List.range s.board.length).filter fun j => boardGet s.board j == EMPTY).map
            fun j => { player := s.to_move, from_idx := some i, to_idx := some j }
        else
          ((ADJACENT.getD i []).filter fun j => boardGet s.board j == EMPTY).map
            fun j => { player := s.to_move, from_idx := some i, to_idx := some j }
      else []

/-- Appends one event (`self.events.append(...)`). -/
def addEvent (s : GameState) (e : Event) : GameState :=
  { s with events := s.events ++ [e] }

/-- Pops the just-pushed history snapshot on a rejected move (`self.history.pop()`). -/
def pop_history (s : GameState) : GameState :=
  { s with history := s.history.tail }

/-- Embeds `GameState._check_winner`. -/
def check_winner (s : GameState) : Option Int :=
  if num_pieces s PLAYER_WHITE < 3 ∧ s.white_in_hand = 0 then some (-PLAYER_WHITE)
  else if num_pieces s PLAYER_BLACK < 3 ∧ s.black_in_hand = 0 then some (-PLAYER_BLACK)
  else if s.phase ≠ .placing ∧ s.removal_pending = false ∧ legal_moves s = [] then
    some (-s.to_move)
  else none

/-- Embeds `GameState._update_phase_and_winner`. -/
def update_phase_and_winner (s : GameState) : GameState :=
  let s :=
    if s.white_in_hand = 0 ∧ s.black_in_hand = 0 ∧ s.phase = .placing ∧
        s.removal_pending = false then
      { s with phase := .moving }
    else s
  if s.winner = none ∧ s.removal_pending = false then
    { s with winner := check_winner s }
  else s

/-- The turn-switch tail shared by the three success paths of `apply_move`:
flip the side to move, update phase/winner, and emit the phase-change and
game-over events. -/
def finishTurn (prev_phase : Phase) (s : GameState) : GameState :=
  let s := { s with to_move := -s.to_move }
  let s := update_phase_and_winner s
  let s := if s.phase ≠ prev_phase then
      addEvent s (.phase_change prev_phase s.phase) else s
  if s.winner ≠ none then addEvent s (.game_over s.winner) else s

/-- Embeds `GameState.apply_move`.  Returns the updated state and the boolean
result (Python mutates in place and returns the boolean). -/
def apply_move (s : GameState) (move : Move) : GameState × Bool :=
  if s.winner ≠ none then (s, false)
  else
    let prev_phase := s.phase
    let s := { s with events := [] }
    let s := push_history s
    match move.remove_idx, s.removal_pending with
    | some r, true =>
        if boardGet s.board r = EMPTY ∨ boardGet s.board r = s.to_move then
          (pop_history s, false)
        else
          let s := { s with board := s.board.set r EMPTY, removal_pending := false }
          let s := addEvent s (.removed s.to_move r)
          (finishTurn prev_phase s, true)
    | _, _ =>
        if s.phase = .placing then
          match move.to_idx with
          | none => (pop_history s, false)
          | some t =>
              if boardGet s.board t ≠ EMPTY then (pop_history s, false)
              else
                let s := { s with board := s.board.set t s.to_move }
                let s := set_current_in_hand s (current_in_hand s - 1)
                let s := addEvent s (.placed s.to_move t)
                if forms_mill s.board t s.to_move then
                  (addEvent { s with removal_pending := true }
                    (.formed_mill s.to_move t), true)
                else
                  (finishTurn prev_phase s, true)
        else
          match move.from_idx, move.to_idx with
          | some f, some t =>
              if boardGet s.board f ≠ s.to_move ∨ boardGet s.board t ≠ EMPTY then
                (pop_history s, false)
              else if ¬ is_flying s s.to_move ∧ t ∉ ADJACENT.getD f [] then
                (pop_history s, false)
              else
                let s := { s with board := (s.board.set f EMPTY).set t s.to_move }
                let s := addEvent s (.moved s.to_move f t)
                if forms_mill s.board t s.to_move then
                  (addEvent { s with removal_pending := true }
                    (.formed_mill s.to_move t), true)
                else
                  (finishTurn prev_phase s, true)
          | _, _ => (pop_history s, false)

/-! ## Search engine (`src/morris/ai.py`)

Python floats only ever hold exact small integers here (the heuristic weights
are 100.0, 2.0, 1.0 and the terminal scores are ±10000.0) plus `math.inf`
sentinels, so scores embed exactly as an integer extended with two infinities.
The in-place `to_move` save/restore done by `evaluate` is made explicit by
threading the state through `evaluateS` and `minimax`. -/

/-- Scores: `math.inf`, `-math.inf` and exact (integer-valued) floats. -/
inductive Score where
  | ninf
  | fin (v : Int)
  | pinf
deriving DecidableEq

/-- The float comparison `a <= b` on scores. -/
def Score.ble : Score → Score → Bool
  | .ninf, _ => true
  | _, .pinf => true
  | .fin a, .fin b => a ≤ b
  | .fin _, .ninf => false
  | .pinf, .fin _ => false
  | .pinf, .ninf => false

/-- The float comparison `a < b` on scores. -/
def Score.blt (a b : Score) : Bool := !(Score.ble b a)

/-- Python `max(a, b)` (returns `a` on ties). -/
def Score.bmax (a b : Score) : Score := if Score.ble b a then a else b

/-- Python `min(a, b)` (returns `a` on ties). -/
def Score.bmin (a b : Score) : Score := if Score.ble a b then a else b

/-- Embeds the `AIDifficulty` dataclass of `src/morris/ai.py`. -/
structure AIDifficulty where
  name : String
  depth : Nat
  use_alpha_beta : Bool
  allow_random : Bool := false
deriving DecidableEq

/-- Embeds `EASY` from `src/morris/ai.py`. -/
def EASY : AIDifficulty :=
  { name := "Easy", depth := 1, use_alpha_beta := false, allow_random := true }

/-- Embeds `MEDIUM` from `src/morris/ai.py`. -/
def MEDIUM : AIDifficulty := { name := "Medium", depth := 3, use_alpha_beta := true }

/-- Embeds `HARD` from `src/morris/ai.py`. -/
def HARD : AIDifficulty := { name := "Hard", depth := 5, use_alpha_beta := true }

/-- Embeds `evaluate` from `src/morris/ai.py`, with the temporary `to_move`
mutation threaded explicitly: returns the score and the state as left behind
by the call (the mutation is restored before returning). -/
def evaluateS (s : GameState) (maximizing_player : Int) : Int × GameState :=
  let opponent := -maximizing_player
  let my_pieces := (num_pieces s maximizing_player : Int)
  let opp_pieces := (num_pieces s opponent : Int)
  if s.winner = some maximizing_player then (10000, s)
  else if s.winner = some opponent then (-10000, s)
  else
    let current_to_move := s.to_move
    let s1 := { s with to_move := maximizing_player }
    let my_moves := ((legal_moves s1).length : Int)
    let s2 := { s1 with to_move := opponent }
    let opp_moves := ((legal_moves s2).length : Int)
    let s3 := { s2 with to_move := current_to_move }
    (100 * (my_pieces - opp_pieces) + 2 * (my_moves - opp_moves) +
      (9 - (if maximizing_player = PLAYER_WHITE then s.white_in_hand
            else s.black_in_hand)), s3)

/-- The score computed by `evaluate` (its net state effect is the identity,
proved below). -/
def evaluate (s : GameState) (maximizing_player : Int) : Int :=
  (evaluateS s maximizing_player).1

/-- The maximizing `for mv in moves` loop of `minimax`: `f` evaluates a child
given the current alpha; threads best value, best move and alpha, with the
alpha-beta break. -/
def maxLoop (f : Score → Move → Score) (β : Score) (ab : Bool) :
    List Move → Score → Option Move → Score → Score × Option Move
  | [], best, bm, _ => (best, bm)
  | mv :: rest, best, bm, a =>
      let v := f a mv
      let best' := if best.blt v then v else best
      let bm' := if best.blt v then some mv else bm
      let a' := if ab then a.bmax best' else a
      if ab && β.ble a' then (best', bm')
      else maxLoop f β ab rest best' bm' a'

/-- The minimizing `for mv in moves` loop of `minimax` (mirror of `maxLoop`). -/
def minLoop (f : Score → Move → Score) (α : Score) (ab : Bool) :
    List Move → Score → Option Move → Score → Score × Option Move
  | [], best, bm, _ => (best, bm)
  | mv :: rest, best, bm, b =>
      let v := f b mv
      let best' := if v.blt best then v else best
      let bm' := if v.blt best then some mv else bm
      let b' := if ab then b.bmin best' else b
      if ab && b'.ble α then (best', bm')
      else minLoop f α ab rest best' bm' b'

/-- Embeds `minimax` from `src/morris/ai.py`.  Returns (score, best move) and
threads the state object through (its only net mutation source is the
`evaluate` call at leaves; recursion happens on clones). -/
def minimax : Nat → GameState → Score → Score → Int → Bool → Score × Option Move × GameState
  | 0, s, _, _, mp, _ =>
      let r := evaluateS s mp
      (.fin r.1, none, r.2)
  | d + 1, s, α, β, mp, ab =>
      if s.winner ≠ none then
        let r := evaluateS s mp
        (.fin r.1, none, r.2)
      else
        let moves := legal_moves s
        if moves = [] then
          let c := clone s
          let c := { c with winner := some (-c.to_move) }
          (.fin (evaluate c mp), none, s)
        else if s.to_move = mp then
          let r := maxLoop
            (fun a mv => (minimax d (apply_move (clone s) mv).1 a β mp ab).1)
            β ab moves .ninf none α
          (r.1, r.2, s)
        else
          let r := minLoop
            (fun b mv => (minimax d (apply_move (clone s) mv).1 α b mp ab).1)
            α ab moves .pinf none β
          (r.1, r.2, s)

/-- Fallback move value for the modelled `random.choice`. -/
def default_move : Move := { player := 0 }

/-- Embeds `choose_move` from `src/morris/ai.py`.  The two uses of the random
module are modelled by oracle arguments: `coin` is `random.random() < 0.5` and
`pick`/`fallback_pick` select the index for `random.choice`. -/
def choose_moveS (s : GameState) (difficulty : AIDifficulty) (coin : Bool)
    (pick fallback_pick : Nat) : Option Move × GameState :=
  let moves := legal_moves s
  if moves = [] then (none, s)
  else if difficulty.allow_random && coin then
    (some (moves.getD (pick % moves.length) default_move), s)
  else
    let r := minimax difficulty.depth s .ninf .pinf s.to_move difficulty.use_alpha_beta
    match r.2.1 with
    | some mv => (some mv, r.2.2)
    | none => (some (moves.getD (fallback_pick % moves.length) default_move), r.2.2)

/-- Embeds `hint` from `src/morris/ai.py`: delegates to `choose_move`. -/
def hintS (s : GameState) (difficulty : AIDifficulty) (coin : Bool)
    (pick fallback_pick : Nat) : Option Move × GameState :=
  choose_moveS s difficulty coin pick fallback_pick

/-! ## Reachability, ghost capture counters, and claim-specific inputs -/

/-- A move whose indices are all in range of the 24-cell board; Python raises
`IndexError` (rather than returning) on out-of-range indices, so only such
moves can be observed to succeed or fail. -/
def moveOK (m : Move) : Bool :=
  m.remove_idx.all (· < 24) && m.to_idx.all (· < 24) && m.from_idx.all (· < 24)

/-- Runs a list of moves through `apply_move`, failing if any call rejects. -/
def runMoves (s : GameState) : List Move → Option GameState
  | [] => some s
  | m :: ms =>
      let r := apply_move s m
      if r.2 then runMoves r.1 ms else none

/-- Ghost counter: 1 when applying `m` to `s` takes the removal branch and
removes a white piece, else 0. -/
def capturedW (s : GameState) (m : Move) : Nat :=
  match m.remove_idx with
  | some r => if s.removal_pending && (boardGet s.board r == PLAYER_WHITE) then 1 else 0
  | none => 0

/-- Ghost counter: 1 when applying `m` to `s` takes the removal branch and
removes a black piece, else 0. -/
def capturedB (s : GameState) (m : Move) : Nat :=
  match m.remove_idx with
  | some r => if s.removal_pending && (boardGet s.board r == PLAYER_BLACK) then 1 else 0
  | none => 0

/-- States reachable from the reset state by successful, in-range `apply_move`
calls, together with ghost counts of white/black pieces captured so far. -/
inductive ReachableC : GameState → Nat → Nat → Prop where
  | init : ReachableC initState 0 0
  | step (s : GameState) (cw cb : Nat) (m : Move) (hr : ReachableC s cw cb)
      (hok : moveOK m = true) (hs : (apply_move s m).2 = true) :
      ReachableC (apply_move s m).1 (cw + capturedW s m) (cb + capturedB s m)

/-- Basic well-formedness of a state: 24 cells, each empty/white/black, and a
real side to move. -/
@[reducible] def WF (s : GameState) : Prop :=
  s.board.length = 24 ∧ (∀ v ∈ s.board, v = EMPTY ∨ v = PLAYER_WHITE ∨ v = PLAYER_BLACK) ∧
    (s.to_move = PLAYER_WHITE ∨ s.to_move = PLAYER_BLACK)

/-- Convenience constructor for placement moves (player tag irrelevant, see C10). -/
def placeMove (t : Nat) : Move := { player := 0, to_idx := some t }

/-- Convenience constructor for removal moves. -/
def removeMove (r : Nat) : Move := { player := 0, remove_idx := some r }

/-- A pending-capture position for C1: black has a formed mill 0-1-2 and a
lone piece at 3; white just milled and must remove. -/
def c1state : GameState where
  board := ([-1, -1, -1, -1, 1, 1] : List Int) ++ List.replicate 18 EMPTY
  phase := .placing
  to_move := PLAYER_WHITE
  white_in_hand := 7
  black_in_hand := 5
  removal_pending := true
  winner := none
  history := []
  redo_stack := []
  events := []

/-- The state after one successful opening placement (used by C2's counterexample). -/
def c2s1 : GameState := (apply_move initState (placeMove 0)).1

/-- The state after placing and undoing: its redo stack is nonempty. -/
def c2s2 : GameState := (undo c2s1).1

/-- An always-illegal move (no indices at all). -/
def c2bad : Move := { player := 1 }

/-- A board where white occupies 1 and 2 only (C3: placing white at 0 completes
line 0-1-2 but not line 0-9-21). -/
def c3board : List Int := [0, 1, 1] ++ List.replicate 21 (0 : Int)

/-- The claim C3's stated condition: every mill line containing `idx` is fully
occupied by `player` (treating `player` as the occupant of `idx`). -/
def everyLineFull (board : List Int) (idx : Nat) (player : Int) : Prop :=
  ∀ t ∈ MILLS, idx ∈ lineOf t → ∀ q ∈ lineOf t, q ≠ idx → boardGet board q = player

/-- Spec-side (`removable_targets` in spec §4.1): whether the actual occupant of
`i` currently participates in a fully-formed mill. -/
def inFormedMill (board : List Int) (i : Nat) : Bool :=
  (boardGet board i != EMPTY) &&
    MILLS.any fun t =>
      decide (i ∈ lineOf t) && (lineOf t).all fun q => boardGet board q == boardGet board i

/-- Spec-side: all positions occupied by `opponent`, in ascending order. -/
def opponentPositions (board : List Int) (opponent : Int) : List Nat :=
  (List.range board.length).filter fun i => boardGet board i == opponent

/-- Spec-side `removable_targets` (spec §4.1): the non-mill opponent positions
when any exist, otherwise all opponent positions (empty when none). -/
def removable_targets (board : List Int) (opponent : Int) : List Nat :=
  let outside := (opponentPositions board opponent).filter fun i => !(inFormedMill board i)
  if outside = [] then opponentPositions board opponent else outside

/-- The C8 trace: white fills even cells, black fills odd cells; black's 18th
stone at 0 completes mill 0-9-21 while both hands are exactly empty, so the
placing-to-moving transition is skipped; play then continues (the code accepts
placements while a capture is pending), white removes the black stone at 0,
and the board is filled completely. -/
def c8trace : List Move :=
  [placeMove 2, placeMove 9, placeMove 4, placeMove 21, placeMove 6, placeMove 1,
   placeMove 8, placeMove 3, placeMove 10, placeMove 5, placeMove 12, placeMove 7,
   placeMove 14, placeMove 11, placeMove 16, placeMove 13, placeMove 18, placeMove 0,
   placeMove 15, removeMove 0, placeMove 17, placeMove 20, placeMove 19, placeMove 22,
   placeMove 23, placeMove 0]


instance : LinearOrder Score where
  le a b := a.ble b = true
  lt a b := a.blt b = true
  le_refl a := by cases a <;> simp [Score.ble]
  le_trans a b c := by
    cases a <;> cases b <;> cases c <;> simp [Score.ble] <;> omega
  le_antisymm a b := by
    cases a <;> cases b <;> simp [Score.ble] <;> omega
  le_total a b := by
    cases a <;> cases b <;> simp [Score.ble] <;> omega
  lt_iff_le_not_le a b := by
    cases a <;> cases b <;> simp [Score.ble, Score.blt] <;> omega
  decidableLE a b := inferInstanceAs (Decidable (Score.ble a b = true))
  decidableEq := inferInstance

instance Score.decLE (a b : Score) : Decidable (a ≤ b) :=
  inferInstanceAs (Decidable (Score.ble a b = true))

instance Score.decLT (a b : Score) : Decidable (a < b) :=
  inferInstanceAs (Decidable (Score.blt a b = true))


/-- The value accumulated by the unpruned maximizing loop. -/
def uFold (u : Move → Score) : List Move → Score → Score
  | [], b => b
  | mv :: ms, b => uFold u ms (if b.blt (u mv) then u mv else b)

/-- The value accumulated by the unpruned minimizing loop. -/
def dFold (u : Move → Score) : List Move → Score → Score
  | [], b => b
  | mv :: ms, b => dFold u ms (if (u mv).blt b then u mv else b)


@[simp] theorem addEvent_history (s : GameState) (e : Event) :
    (addEvent s e).history = s.history := rfl

@[simp] theorem addEvent_redo (s : GameState) (e : Event) :
    (addEvent s e).redo_stack = s.redo_stack := rfl

@[simp] theorem set_current_in_hand_history (s : GameState) (v : Int) :
    (set_current_in_hand s v).history = s.history := by
  unfold set_current_in_hand; split_ifs <;> rfl

@[simp] theorem set_current_in_hand_redo (s : GameState) (v : Int) :
    (set_current_in_hand s v).redo_stack = s.redo_stack := by
  unfold set_current_in_hand; split_ifs <;> rfl

@[simp] theorem update_phase_and_winner_history (s : GameState) :
    (update_phase_and_winner s).history = s.history := by
  unfold update_phase_and_winner; dsimp only; split_ifs <;> rfl

@[simp] theorem update_phase_and_winner_redo (s : GameState) :
    (update_phase_and_winner s).redo_stack = s.redo_stack := by
  unfold update_phase_and_winner; dsimp only; split_ifs <;> rfl

@[simp] theorem finishTurn_history (ph : Phase) (s : GameState) :
    (finishTurn ph s).history = s.history := by
  unfold finishTurn; dsimp only; split_ifs <;> simp

@[simp] theorem finishTurn_redo (ph : Phase) (s : GameState) :
    (finishTurn ph s).redo_stack = s.redo_stack := by
  unfold finishTurn; dsimp only; split_ifs <;> simp

@[simp] theorem mkSnap_set_events (s : GameState) (es : List Event) :
    mkSnap { s with events := es } = mkSnap s := rfl

theorem apply_move_success_stacks (s : GameState) (m : Move) :
    (apply_move s m).2 = true →
    (apply_move s m).1.history = mkSnap s :: s.history ∧
      (apply_move s m).1.redo_stack = [] := by
  rcases m with ⟨mp, mf, mt, mr⟩
  cases hw : s.winner with
  | some w => intro h; simp [apply_move, hw] at h
  | none =>
    rcases mr with _ | r <;> cases hp : s.removal_pending <;>
      cases hph : s.phase <;> rcases mt with _ | t <;> rcases mf with _ | f <;>
      simp only [apply_move, push_history, pop_history, hp, hph, hw,
        ne_eq, not_true_eq_false, not_false_eq_true, reduceIte, reduceCtorEq] <;>
      first
        | (split_ifs <;>
            first
              | (intro h; simp at h; done)
              | (intro _; refine ⟨?_, ?_⟩ <;> simp [mkSnap, hw, hp, hph]))
        | (intro h; simp at h; done)
        | (intro _; refine ⟨?_, ?_⟩ <;> simp [mkSnap, hw, hp, hph])


@[simp] theorem addEvent_board (s : GameState) (e : Event) : (addEvent s e).board = s.board := rfl

@[simp] theorem addEvent_to_move (s : GameState) (e : Event) : (addEvent s e).to_move = s.to_move := rfl

@[simp] theorem addEvent_white (s : GameState) (e : Event) :
    (addEvent s e).white_in_hand = s.white_in_hand := rfl

@[simp] theorem addEvent_black (s : GameState) (e : Event) :
    (addEvent s e).black_in_hand = s.black_in_hand := rfl

@[simp] theorem update_phase_and_winner_board (s : GameState) :
    (update_phase_and_winner s).board = s.board := by
  unfold update_phase_and_winner; dsimp only; split_ifs <;> rfl

@[simp] theorem update_phase_and_winner_to_move (s : GameState) :
    (update_phase_and_winner s).to_move = s.to_move := by
  unfold update_phase_and_winner; dsimp only; split_ifs <;> rfl

@[simp] theorem update_phase_and_winner_white (s : GameState) :
    (update_phase_and_winner s).white_in_hand = s.white_in_hand := by
  unfold update_phase_and_winner; dsimp only; split_ifs <;> rfl

@[simp] theorem update_phase_and_winner_black (s : GameState) :
    (update_phase_and_winner s).black_in_hand = s.black_in_hand := by
  unfold update_phase_and_winner; dsimp only; split_ifs <;> rfl

@[simp] theorem finishTurn_board (ph : Phase) (s : GameState) :
    (finishTurn ph s).board = s.board := by
  unfold finishTurn; dsimp only; split_ifs <;> simp

@[simp] theorem finishTurn_to_move (ph : Phase) (s : GameState) :
    (finishTurn ph s).to_move = -s.to_move := by
  unfold finishTurn; dsimp only; split_ifs <;> simp

@[simp] theorem finishTurn_white (ph : Phase) (s : GameState) :
    (finishTurn ph s).white_in_hand = s.white_in_hand := by
  unfold finishTurn; dsimp only; split_ifs <;> simp

@[simp] theorem finishTurn_black (ph : Phase) (s : GameState) :
    (finishTurn ph s).black_in_hand = s.black_in_hand := by
  unfold finishTurn; dsimp only; split_ifs <;> simp

@[simp] theorem set_current_in_hand_board (s : GameState) (v : Int) :
    (set_current_in_hand s v).board = s.board := by
  unfold set_current_in_hand; split_ifs <;> rfl

@[simp] theorem set_current_in_hand_to_move (s : GameState) (v : Int) :
    (set_current_in_hand s v).to_move = s.to_move := by
  unfold set_current_in_hand; split_ifs <;> rfl

theorem set_current_in_hand_white (s : GameState) (v : Int) :
    (set_current_in_hand s v).white_in_hand =
      if s.to_move = PLAYER_WHITE then v else s.white_in_hand := by
  unfold set_current_in_hand; split_ifs <;> rfl

theorem set_current_in_hand_black (s : GameState) (v : Int) :
    (set_current_in_hand s v).black_in_hand =
      if s.to_move = PLAYER_WHITE then s.black_in_hand else v := by
  unfold set_current_in_hand; split_ifs <;> rfl

theorem count_set_int (l : List Int) (i : Nat) (h : i < l.length) (a x : Int) :
    ((l.set i a).count x : Int) =
      (l.count x : Int) - (if l[i] = x then 1 else 0) + (if a = x then 1 else 0) := by
  rw [List.count_set a x l i h]
  by_cases hc : l[i] = x
  · have h1 : 1 ≤ l.count x := by
      rw [List.one_le_count_iff]; exact hc ▸ List.getElem_mem h
    by_cases ha : a = x <;> simp [hc, ha, Nat.cast_sub h1]
  · by_cases ha : a = x <;> simp [hc, ha]

theorem counts_after_place (b : List Int) (t : Nat) (ht : t < b.length) (p x : Int)
    (hcell : b.getD t 0 = 0) (hx : x ≠ 0) :
    ((b.set t p).count x : Int) = b.count x + (if p = x then 1 else 0) := by
  rw [count_set_int b t ht p x]
  rw [List.getD_eq_getElem b 0 ht] at hcell
  simp [hcell, Ne.symm hx]

theorem counts_after_remove (b : List Int) (r : Nat) (hr : r < b.length) (x : Int)
    (hx : x ≠ 0) :
    ((b.set r 0).count x : Int) = b.count x - (if b.getD r 0 = x then 1 else 0) := by
  rw [count_set_int b r hr 0 x, List.getD_eq_getElem b 0 hr]
  simp [Ne.symm hx]

theorem counts_after_move (b : List Int) (f t : Nat) (hf : f < b.length) (ht : t < b.length)
    (hft : f ≠ t) (p x : Int) (hcf : b.getD f 0 = p) (hct : b.getD t 0 = 0)
    (hx : x ≠ 0) :
    (((b.set f 0).set t p).count x : Int) = b.count x := by
  have ht' : t < (b.set f 0).length := by simpa using ht
  rw [count_set_int (b.set f 0) t ht' p x, count_set_int b f hf 0 x]
  rw [List.getD_eq_getElem b 0 hf] at hcf
  rw [List.getD_eq_getElem b 0 ht] at hct
  rw [List.getElem_set_ne hft]
  simp [hct, hcf, Ne.symm hx]

theorem step_preserves_nonremove (s : GameState) (mp : Int) (mf mt : Option Nat)
    (cw cb : Nat)
    (hokt : ∀ x, mt = some x → x < 24) (hokf : ∀ x, mf = some x → x < 24)
    (hw : s.winner = none)
    (hs : (apply_move s ⟨mp, mf, mt, none⟩).2 = true)
    (hlen : s.board.length = 24)
    (hmem : ∀ v ∈ s.board, v = EMPTY ∨ v = PLAYER_WHITE ∨ v = PLAYER_BLACK)
    (htm : s.to_move = PLAYER_WHITE ∨ s.to_move = PLAYER_BLACK)
    (hW : (num_pieces s PLAYER_WHITE : Int) + s.white_in_hand + cw = 9)
    (hB : (num_pieces s PLAYER_BLACK : Int) + s.black_in_hand + cb = 9) :
    WF (apply_move s ⟨mp, mf, mt, none⟩).1 ∧
      (num_pieces (apply_move s ⟨mp, mf, mt, none⟩).1 PLAYER_WHITE : Int) +
        (apply_move s ⟨mp, mf, mt, none⟩).1.white_in_hand + cw = 9 ∧
      (num_pieces (apply_move s ⟨mp, mf, mt, none⟩).1 PLAYER_BLACK : Int) +
        (apply_move s ⟨mp, mf, mt, none⟩).1.black_in_hand + cb = 9 := by
  have htm0 : s.to_move ≠ 0 := by
    rcases htm with h1 | h1 <;> rw [h1] <;> decide
  simp only [num_pieces] at hW hB ⊢
  cases hph : s.phase with
  | placing =>
    rcases mt with _ | t
    · simp only [apply_move, hw, hph, ne_eq, not_true_eq_false, not_false_eq_true, reduceIte, reduceCtorEq, push_history,
        pop_history] at hs
      try simp at hs
    · have ht24 : t < 24 := hokt t rfl
      have ht' : t < s.board.length := by rw [hlen]; exact ht24
      have hcell : boardGet s.board t = EMPTY := by
        by_contra hcc
        simp only [apply_move, hw, hph, ne_eq, not_true_eq_false, not_false_eq_true, reduceIte, reduceCtorEq, push_history,
          pop_history, hcc] at hs
        try simp at hs
      simp only [apply_move, hw, hph, ne_eq, not_true_eq_false, not_false_eq_true, reduceIte, reduceCtorEq, push_history,
        pop_history]
      rw [if_neg (not_not_intro hcell)]
      have hcell0 : s.board.getD t 0 = 0 := hcell
      split
      · refine ⟨⟨by simp [hlen], ?_, ?_⟩, ?_, ?_⟩
        · intro v hv
          simp only [addEvent_board, set_current_in_hand_board] at hv
          rcases List.mem_or_eq_of_mem_set hv with h | h
          · exact hmem v h
          · rcases htm with h1 | h1
            · exact Or.inr (Or.inl (h.trans h1))
            · exact Or.inr (Or.inr (h.trans h1))
        · simpa using htm
        · simp only [addEvent_board, addEvent_white, addEvent_to_move,
            set_current_in_hand_board, set_current_in_hand_white,
            set_current_in_hand_to_move, current_in_hand]
          rw [counts_after_place s.board t ht' s.to_move PLAYER_WHITE hcell0 (by decide)]
          rcases htm with h1 | h1 <;>
            simp only [h1, PLAYER_WHITE, PLAYER_BLACK, reduceIte] at hW hB ⊢ <;> omega
        · simp only [addEvent_board, addEvent_black, addEvent_to_move,
            set_current_in_hand_board, set_current_in_hand_black,
            set_current_in_hand_to_move, current_in_hand]
          rw [counts_after_place s.board t ht' s.to_move PLAYER_BLACK hcell0 (by decide)]
          rcases htm with h1 | h1 <;>
            simp only [h1, PLAYER_WHITE, PLAYER_BLACK, reduceIte] at hW hB ⊢ <;> omega
      · refine ⟨⟨by simp [hlen], ?_, ?_⟩, ?_, ?_⟩
        · intro v hv
          simp only [finishTurn_board, addEvent_board, set_current_in_hand_board] at hv
          rcases List.mem_or_eq_of_mem_set hv with h | h
          · exact hmem v h
          · rcases htm with h1 | h1
            · exact Or.inr (Or.inl (h.trans h1))
            · exact Or.inr (Or.inr (h.trans h1))
        · simp only [finishTurn_to_move, addEvent_to_move, set_current_in_hand_to_move]
          rcases htm with h1 | h1 <;> rw [h1] <;> decide
        · simp only [finishTurn_board, finishTurn_white, addEvent_board, addEvent_white,
            addEvent_to_move, set_current_in_hand_board, set_current_in_hand_white,
            set_current_in_hand_to_move, current_in_hand]
          rw [counts_after_place s.board t ht' s.to_move PLAYER_WHITE hcell0 (by decide)]
          rcases htm with h1 | h1 <;>
            simp only [h1, PLAYER_WHITE, PLAYER_BLACK, reduceIte] at hW hB ⊢ <;> omega
        · simp only [finishTurn_board, finishTurn_black, addEvent_board, addEvent_black,
            addEvent_to_move, set_current_in_hand_board, set_current_in_hand_black,
            set_current_in_hand_to_move, current_in_hand]
          rw [counts_after_place s.board t ht' s.to_move PLAYER_BLACK hcell0 (by decide)]
          rcases htm with h1 | h1 <;>
            simp only [h1, PLAYER_WHITE, PLAYER_BLACK, reduceIte] at hW hB ⊢ <;> omega
  | moving =>
    rcases mt with _ | t <;> rcases mf with _ | f
    · simp only [apply_move, hw, hph, ne_eq, not_true_eq_false, not_false_eq_true, reduceIte, reduceCtorEq, push_history,
        pop_history] at hs
      try simp at hs
    · simp only [apply_move, hw, hph, ne_eq, not_true_eq_false, not_false_eq_true, reduceIte, reduceCtorEq, push_history,
        pop_history] at hs
      try simp at hs
    · simp only [apply_move, hw, hph, ne_eq, not_true_eq_false, not_false_eq_true, reduceIte, reduceCtorEq, push_history,
        pop_history] at hs
      try simp at hs
    · have ht24 : t < 24 := hokt t rfl
      have hf24 : f < 24 := hokf f rfl
      have ht' : t < s.board.length := by rw [hlen]; exact ht24
      have hf' : f < s.board.length := by rw [hlen]; exact hf24
      have hcond : boardGet s.board f = s.to_move ∧ boardGet s.board t = EMPTY := by
        by_contra hcc
        rw [not_and_or] at hcc
        have hcc2 : boardGet s.board f ≠ s.to_move ∨ boardGet s.board t ≠ EMPTY := hcc
        simp only [apply_move, hw, hph, ne_eq, not_true_eq_false, not_false_eq_true, reduceIte, reduceCtorEq, push_history,
          pop_history, if_pos hcc2] at hs
        try simp at hs
      obtain ⟨hcf, hct⟩ := hcond
      have hft : f ≠ t := by
        intro he
        rw [he, hct] at hcf
        exact htm0 hcf.symm
      have hcf0 : s.board.getD f 0 = s.to_move := hcf
      have hct0 : s.board.getD t 0 = 0 := hct
      simp only [apply_move, hw, hph, ne_eq, not_true_eq_false, not_false_eq_true,
        reduceIte, reduceCtorEq, push_history, pop_history] at hs ⊢
      rw [if_neg (by push_neg; exact ⟨hcf, hct⟩ :
        ¬ (¬ boardGet s.board f = s.to_move ∨ ¬ boardGet s.board t = EMPTY))] at hs ⊢
      split at hs
      next h2 =>
        simp at hs
      next h2 =>
      rw [if_neg h2]
      split
      · refine ⟨⟨by simp [hlen], ?_, ?_⟩, ?_, ?_⟩
        · intro v hv
          simp only [addEvent_board] at hv
          rcases List.mem_or_eq_of_mem_set hv with h | h
          · rcases List.mem_or_eq_of_mem_set h with h2 | h2
            · exact hmem v h2
            · exact Or.inl h2
          · rcases htm with h1 | h1
            · exact Or.inr (Or.inl (h.trans h1))
            · exact Or.inr (Or.inr (h.trans h1))
        · simpa using htm
        · simp only [addEvent_board, addEvent_white, addEvent_to_move, EMPTY]
          rw [counts_after_move s.board f t hf' ht' hft s.to_move PLAYER_WHITE hcf0 hct0
            (by decide)]
          omega
        · simp only [addEvent_board, addEvent_black, addEvent_to_move, EMPTY]
          rw [counts_after_move s.board f t hf' ht' hft s.to_move PLAYER_BLACK hcf0 hct0
            (by decide)]
          omega
      · refine ⟨⟨by simp [hlen], ?_, ?_⟩, ?_, ?_⟩
        · intro v hv
          simp only [finishTurn_board, addEvent_board] at hv
          rcases List.mem_or_eq_of_mem_set hv with h | h
          · rcases List.mem_or_eq_of_mem_set h with h2 | h2
            · exact hmem v h2
            · exact Or.inl h2
          · rcases htm with h1 | h1
            · exact Or.inr (Or.inl (h.trans h1))
            · exact Or.inr (Or.inr (h.trans h1))
        · simp only [finishTurn_to_move, addEvent_to_move]
          rcases htm with h1 | h1 <;> rw [h1] <;> decide
        · simp only [finishTurn_board, finishTurn_white, addEvent_board, addEvent_white,
            EMPTY]
          rw [counts_after_move s.board f t hf' ht' hft s.to_move PLAYER_WHITE hcf0 hct0
            (by decide)]
          omega
        · simp only [finishTurn_board, finishTurn_black, addEvent_board, addEvent_black,
            EMPTY]
          rw [counts_after_move s.board f t hf' ht' hft s.to_move PLAYER_BLACK hcf0 hct0
            (by decide)]
          omega

theorem step_preserves (s : GameState) (m : Move) (cw cb : Nat)
    (hok : moveOK m = true) (hs : (apply_move s m).2 = true) (hwf : WF s)
    (hW : (num_pieces s PLAYER_WHITE : Int) + s.white_in_hand + cw = 9)
    (hB : (num_pieces s PLAYER_BLACK : Int) + s.black_in_hand + cb = 9) :
    WF (apply_move s m).1 ∧
      (num_pieces (apply_move s m).1 PLAYER_WHITE : Int) +
        (apply_move s m).1.white_in_hand + (cw + capturedW s m) = 9 ∧
      (num_pieces (apply_move s m).1 PLAYER_BLACK : Int) +
        (apply_move s m).1.black_in_hand + (cb + capturedB s m) = 9 := by
  obtain ⟨hlen, hmem, htm⟩ := hwf
  rcases m with ⟨mp, mf, mt, mr⟩
  cases hw : s.winner with
  | some w => simp [apply_move, hw] at hs
  | none =>
    have hall : ∀ (o : Option Nat) (x : Nat), o.all (fun i => decide (i < 24)) = true →
        o = some x → x < 24 := by
      intro o x hall hx; subst hx; simpa using hall
    rw [moveOK, Bool.and_eq_true, Bool.and_eq_true] at hok
    have hokr : ∀ x, mr = some x → x < 24 := fun x => hall mr x hok.1.1
    have hokt : ∀ x, mt = some x → x < 24 := fun x => hall mt x hok.1.2
    have hokf : ∀ x, mf = some x → x < 24 := fun x => hall mf x hok.2
    rcases mr with _ | r
    · have h := step_preserves_nonremove s mp mf mt cw cb hokt hokf hw hs hlen hmem htm hW hB
      simpa [capturedW, capturedB] using h
    · cases hp : s.removal_pending
      case false =>
        have hred : apply_move s ⟨mp, mf, mt, some r⟩ = apply_move s ⟨mp, mf, mt, none⟩ := by
          simp only [apply_move, push_history, hp]
        rw [hred] at hs ⊢
        have h := step_preserves_nonremove s mp mf mt cw cb hokt hokf hw hs hlen hmem htm hW hB
        simpa [capturedW, capturedB, hp] using h
      case true =>
        have hr24 : r < 24 := hokr r rfl
        have hr' : r < s.board.length := by rw [hlen]; exact hr24
        have hcond : ¬ (boardGet s.board r = EMPTY ∨ boardGet s.board r = s.to_move) := by
          intro hcc
          simp only [apply_move, hw, hp, ne_eq, not_true_eq_false, not_false_eq_true,
            reduceIte, reduceCtorEq, push_history, pop_history] at hs
          rw [if_pos hcc] at hs
          simp at hs
        have hnot := hcond
        rw [not_or] at hnot
        obtain ⟨hne0, hnetm⟩ := hnot
        have hmemr : s.board.getD r 0 ∈ s.board := by
          rw [List.getD_eq_getElem s.board 0 hr']
          exact List.getElem_mem hr'
        simp only [num_pieces] at hW hB ⊢
        simp only [apply_move, hw, hp, ne_eq, not_true_eq_false, not_false_eq_true,
          reduceIte, reduceCtorEq, push_history, pop_history]
        rw [if_neg hcond]
        simp only [capturedW, capturedB, hp, Bool.true_and, boardGet, EMPTY]
        refine ⟨⟨by simp [hlen], ?_, ?_⟩, ?_, ?_⟩
        · intro v hv
          simp only [finishTurn_board, addEvent_board] at hv
          rcases List.mem_or_eq_of_mem_set hv with h | h
          · exact hmem v h
          · exact Or.inl h
        · simp only [finishTurn_to_move, addEvent_to_move]
          rcases htm with h1 | h1 <;> rw [h1] <;> decide
        · simp only [finishTurn_board, finishTurn_white, finishTurn_to_move,
            addEvent_board, addEvent_white, addEvent_to_move, EMPTY]
          rw [counts_after_remove s.board r hr' PLAYER_WHITE (by decide)]
          have hd1 : PLAYER_BLACK ≠ PLAYER_WHITE := by decide
          rcases hmem _ hmemr with h0 | h1 | h1
          · exact absurd h0 hne0
          · simp [h1]
            omega
          · simp [h1, hd1]
            omega
        · simp only [finishTurn_board, finishTurn_black, finishTurn_to_move,
            addEvent_board, addEvent_black, addEvent_to_move, EMPTY]
          rw [counts_after_remove s.board r hr' PLAYER_BLACK (by decide)]
          have hd1 : PLAYER_WHITE ≠ PLAYER_BLACK := by decide
          rcases hmem _ hmemr with h0 | h1 | h1
          · exact absurd h0 hne0
          · simp [h1, hd1]
            omega
          · simp [h1]
            omega

/-- C4: for every state reachable by successful in-range `apply_move` calls,
with `cw`/`cb` counting the white/black stones captured along the way, each
side's on-board count plus its in-hand count plus its captured count is 9. -/
theorem c4_conservation  (s : GameState) (cw cb : Nat) (h : ReachableC s cw cb) :
    WF s ∧ (num_pieces s PLAYER_WHITE : Int) + s.white_in_hand + cw = 9 ∧
      (num_pieces s PLAYER_BLACK : Int) + s.black_in_hand + cb = 9 := by
  induction h with
  | init => refine ⟨⟨rfl, ?_, Or.inl rfl⟩, by decide, by decide⟩
            intro v hv
            simp [initState] at hv
            exact Or.inl hv
  | step s cw cb m hr hok hs IH =>
    obtain ⟨hwf, hW, hB⟩ := IH
    exact step_preserves s m cw cb hok hs hwf hW hB

/-- C4 witness: the conservation invariant instantiated at the initial state
with zero captures. -/
theorem c4_conservation_witness :
    WF initState ∧
      (num_pieces initState PLAYER_WHITE : Int) + initState.white_in_hand +
        ((0 : Nat) : Int) = 9 ∧
      (num_pieces initState PLAYER_BLACK : Int) + initState.black_in_hand +
        ((0 : Nat) : Int) = 9 :=
  c4_conservation initState 0 0 ReachableC.init


theorem Score.ble_iff_le (a b : Score) : a.ble b = true ↔ a ≤ b := Iff.rfl

theorem Score.blt_iff_lt (a b : Score) : a.blt b = true ↔ a < b := Iff.rfl

theorem Score.ninf_le (a : Score) : Score.ninf ≤ a := by
  cases a <;> simp [(· ≤ ·), Score.ble]

theorem Score.le_pinf (a : Score) : a ≤ Score.pinf := by
  cases a <;> simp [(· ≤ ·), Score.ble]

theorem Score.le_ninf_iff (a : Score) : a ≤ Score.ninf ↔ a = Score.ninf := by
  cases a <;> simp [(· ≤ ·), Score.ble]

theorem Score.pinf_le_iff (a : Score) : Score.pinf ≤ a ↔ a = Score.pinf := by
  cases a <;> simp [(· ≤ ·), Score.ble]

theorem Score.bmax_eq_left {a b : Score} (h : b ≤ a) : Score.bmax a b = a := by
  unfold Score.bmax
  rw [if_pos ((Score.ble_iff_le b a).mpr h)]

theorem Score.bmax_eq_right {a b : Score} (h : a ≤ b) : Score.bmax a b = b := by
  unfold Score.bmax
  by_cases h2 : Score.ble b a = true
  · rw [if_pos h2]
    exact le_antisymm h ((Score.ble_iff_le b a).mp h2)
  · rw [if_neg h2]

theorem Score.bmin_eq_left {a b : Score} (h : a ≤ b) : Score.bmin a b = a := by
  unfold Score.bmin
  rw [if_pos ((Score.ble_iff_le a b).mpr h)]

theorem Score.bmin_eq_right {a b : Score} (h : b ≤ a) : Score.bmin a b = b := by
  unfold Score.bmin
  by_cases h2 : Score.ble a b = true
  · rw [if_pos h2]
    exact le_antisymm ((Score.ble_iff_le a b).mp h2) h
  · rw [if_neg h2]


theorem le_uFold (u : Move → Score) : ∀ (ms : List Move) (b : Score), b ≤ uFold u ms b := by
  intro ms
  induction ms with
  | nil => intro b; exact le_refl b
  | cons mv rest ih =>
    intro b
    rw [uFold]
    refine le_trans ?_ (ih _)
    by_cases h : b < u mv
    · rw [if_pos ((Score.blt_iff_lt b (u mv)).mpr h)]
      exact le_of_lt h
    · rw [if_neg (fun hh => h ((Score.blt_iff_lt b (u mv)).mp hh))]

theorem dFold_le (u : Move → Score) : ∀ (ms : List Move) (b : Score), dFold u ms b ≤ b := by
  intro ms
  induction ms with
  | nil => intro b; exact le_refl b
  | cons mv rest ih =>
    intro b
    rw [dFold]
    refine le_trans (ih _) ?_
    by_cases h : u mv < b
    · rw [if_pos ((Score.blt_iff_lt (u mv) b).mpr h)]
      exact le_of_lt h
    · rw [if_neg (fun hh => h ((Score.blt_iff_lt (u mv) b).mp hh))]

theorem maxLoop_cons (f : Score → Move → Score) (β : Score) (ab : Bool) (mv : Move)
    (rest : List Move) (best : Score) (bm : Option Move) (a : Score) :
    maxLoop f β ab (mv :: rest) best bm a =
      (if ab && β.ble (if ab then a.bmax (if best.blt (f a mv) then f a mv else best) else a)
        then ((if best.blt (f a mv) then f a mv else best),
              (if best.blt (f a mv) then some mv else bm))
        else maxLoop f β ab rest (if best.blt (f a mv) then f a mv else best)
          (if best.blt (f a mv) then some mv else bm)
          (if ab then a.bmax (if best.blt (f a mv) then f a mv else best) else a)) := rfl

theorem minLoop_cons (f : Score → Move → Score) (α : Score) (ab : Bool) (mv : Move)
    (rest : List Move) (best : Score) (bm : Option Move) (b : Score) :
    minLoop f α ab (mv :: rest) best bm b =
      (if ab && (if ab then b.bmin (if (f b mv).blt best then f b mv else best) else b).ble α
        then ((if (f b mv).blt best then f b mv else best),
              (if (f b mv).blt best then some mv else bm))
        else minLoop f α ab rest (if (f b mv).blt best then f b mv else best)
          (if (f b mv).blt best then some mv else bm)
          (if ab then b.bmin (if (f b mv).blt best then f b mv else best) else b)) := rfl

theorem maxLoop_false_val (f : Score → Move → Score) (β : Score) :
    ∀ (ms : List Move) (best : Score) (bm : Option Move) (a : Score),
      (maxLoop f β false ms best bm a).1 = uFold (fun mv => f a mv) ms best := by
  intro ms
  induction ms with
  | nil => intro best bm a; rfl
  | cons mv rest ih =>
    intro best bm a
    rw [maxLoop_cons, uFold]
    simp only [Bool.false_and, if_neg (by simp : ¬ (false = true)), if_false]
    exact ih _ _ _

theorem minLoop_false_val (f : Score → Move → Score) (α : Score) :
    ∀ (ms : List Move) (best : Score) (bm : Option Move) (b : Score),
      (minLoop f α false ms best bm b).1 = dFold (fun mv => f b mv) ms best := by
  intro ms
  induction ms with
  | nil => intro best bm b; rfl
  | cons mv rest ih =>
    intro best bm b
    rw [minLoop_cons, dFold]
    simp only [Bool.false_and, if_neg (by simp : ¬ (false = true)), if_false]
    exact ih _ _ _


theorem maxLoop_window (f : Score → Move → Score) (u : Move → Score) (β α₀ : Score)
    (Hf : ∀ a mv, a < β →
      ((u mv ≤ a → f a mv ≤ a) ∧ (β ≤ u mv → β ≤ f a mv) ∧
        (a < u mv → u mv < β → f a mv = u mv))) :
    ∀ (ms : List Move) (bestP : Score) (bmP : Option Move) (a bestU : Score),
      a < β →
      ((bestU ≤ α₀ ∧ bestP ≤ α₀ ∧ a = α₀) ∨ (α₀ < bestU ∧ bestP = bestU ∧ a = bestU)) →
      ((uFold u ms bestU ≤ α₀ → (maxLoop f β true ms bestP bmP a).1 ≤ α₀) ∧
        (β ≤ uFold u ms bestU → β ≤ (maxLoop f β true ms bestP bmP a).1) ∧
        (α₀ < uFold u ms bestU → uFold u ms bestU < β →
          (maxLoop f β true ms bestP bmP a).1 = uFold u ms bestU)) := by
  intro ms
  induction ms with
  | nil =>
    intro bestP bmP a bestU haβ hinv
    rcases hinv with ⟨hU, hP, ha⟩ | ⟨hU, hPU, ha⟩
    · refine ⟨fun _ => hP, ?_, ?_⟩
      · intro hβT
        exact absurd (le_trans hβT hU) (not_le.mpr (ha ▸ haβ))
      · intro hαT _
        exact absurd hαT (not_lt.mpr hU)
    · refine ⟨?_, ?_, ?_⟩
      · intro hT
        exact absurd hT (not_le.mpr hU)
      · intro hT
        exact hPU ▸ hT
      · intro _ _
        exact hPU
  | cons mv rest ih =>
    intro bestP bmP a bestU haβ hinv
    have hf3 := Hf a mv haβ
    rw [maxLoop_cons, uFold]
    simp only [Bool.true_and, reduceIte]
    rcases hinv with ⟨hU, hP, ha⟩ | ⟨hU, hPU, ha⟩
    · by_cases hc1 : u mv ≤ a
      · have hva : f a mv ≤ a := hf3.1 hc1
        have hbp' : (if (bestP.blt (f a mv)) = true then f a mv else bestP) ≤ α₀ := by
          by_cases h : bestP < f a mv
          · rw [if_pos ((Score.blt_iff_lt _ _).mpr h)]
            exact le_trans hva (le_of_eq ha)
          · rw [if_neg (fun hh => h ((Score.blt_iff_lt _ _).mp hh))]
            exact hP
        have hu' : (if (bestU.blt (u mv)) = true then u mv else bestU) ≤ α₀ := by
          by_cases h : bestU < u mv
          · rw [if_pos ((Score.blt_iff_lt _ _).mpr h)]
            exact le_trans hc1 (le_of_eq ha)
          · rw [if_neg (fun hh => h ((Score.blt_iff_lt _ _).mp hh))]
            exact hU
        have ha' : a.bmax (if (bestP.blt (f a mv)) = true then f a mv else bestP) = a :=
          Score.bmax_eq_left (le_trans hbp' (le_of_eq ha.symm))
        rw [ha']
        rw [if_neg (fun hh => absurd ((Score.ble_iff_le _ _).mp hh) (not_le.mpr haβ))]
        exact ih _ _ _ _ haβ (Or.inl ⟨hu', hbp', ha⟩)
      · have hauc : a < u mv := not_le.mp hc1
        have hbltu : bestU < u mv := lt_of_le_of_lt (le_trans hU (le_of_eq ha.symm)) hauc
        have hbltp0 : bestP ≤ a := le_trans hP (le_of_eq ha.symm)
        rw [if_pos ((Score.blt_iff_lt _ _).mpr hbltu)]
        by_cases hc2 : u mv < β
        · have hveq : f a mv = u mv := hf3.2.2 hauc hc2
          have hbltp : bestP < f a mv := lt_of_le_of_lt hbltp0 (hveq ▸ hauc)
          rw [if_pos ((Score.blt_iff_lt _ _).mpr hbltp)]
          have ha' : a.bmax (f a mv) = f a mv :=
            Score.bmax_eq_right (le_of_lt (hveq ▸ hauc))
          rw [ha']
          rw [if_neg (fun hh =>
            absurd ((Score.ble_iff_le _ _).mp hh) (not_le.mpr (hveq ▸ hc2)))]
          refine ih _ _ _ _ (hveq ▸ hc2) (Or.inr ⟨ha ▸ hauc, hveq, hveq⟩)
        · have hβuc : β ≤ u mv := not_lt.mp hc2
          have hβv : β ≤ f a mv := hf3.2.1 hβuc
          have hbltp : bestP < f a mv := lt_of_le_of_lt hbltp0 (lt_of_lt_of_le haβ hβv)
          rw [if_pos ((Score.blt_iff_lt _ _).mpr hbltp)]
          have ha' : a.bmax (f a mv) = f a mv :=
            Score.bmax_eq_right (le_of_lt (lt_of_lt_of_le haβ hβv))
          rw [ha']
          rw [if_pos ((Score.ble_iff_le _ _).mpr hβv)]
          have hβT : β ≤ uFold u rest (u mv) := le_trans hβuc (le_uFold u rest (u mv))
          refine ⟨?_, fun _ => hβv, ?_⟩
          · intro hT
            exact absurd (le_trans hβT hT) (not_le.mpr (ha ▸ haβ))
          · intro _ hTβ
            exact absurd hβT (not_le.mpr hTβ)
    · by_cases hc1 : u mv ≤ a
      · have hva : f a mv ≤ a := hf3.1 hc1
        have hnbltp : ¬ bestP < f a mv := not_lt.mpr (le_trans hva (le_of_eq (ha.trans hPU.symm)))
        have hnbltu : ¬ bestU < u mv := not_lt.mpr (le_trans hc1 (le_of_eq ha))
        rw [if_neg (fun hh => hnbltp ((Score.blt_iff_lt _ _).mp hh))]
        rw [if_neg (fun hh => hnbltu ((Score.blt_iff_lt _ _).mp hh))]
        have ha' : a.bmax bestP = a := Score.bmax_eq_left (le_of_eq (hPU.trans ha.symm))
        rw [ha']
        rw [if_neg (fun hh => absurd ((Score.ble_iff_le _ _).mp hh) (not_le.mpr haβ))]
        exact ih _ _ _ _ haβ (Or.inr ⟨hU, hPU, ha⟩)
      · have hauc : a < u mv := not_le.mp hc1
        have hbltu : bestU < u mv := ha ▸ hauc
        rw [if_pos ((Score.blt_iff_lt _ _).mpr hbltu)]
        by_cases hc2 : u mv < β
        · have hveq : f a mv = u mv := hf3.2.2 hauc hc2
          have hbltp : bestP < f a mv := by
            rw [hPU, ← ha]
            exact hveq ▸ hauc
          rw [if_pos ((Score.blt_iff_lt _ _).mpr hbltp)]
          have ha' : a.bmax (f a mv) = f a mv :=
            Score.bmax_eq_right (le_of_lt (hveq ▸ hauc))
          rw [ha']
          rw [if_neg (fun hh =>
            absurd ((Score.ble_iff_le _ _).mp hh) (not_le.mpr (hveq ▸ hc2)))]
          refine ih _ _ _ _ (hveq ▸ hc2)
            (Or.inr ⟨lt_trans (ha ▸ hU) hauc, hveq, hveq⟩)
        · have hβuc : β ≤ u mv := not_lt.mp hc2
          have hβv : β ≤ f a mv := hf3.2.1 hβuc
          have hbltp : bestP < f a mv := by
            rw [hPU, ← ha]
            exact lt_of_lt_of_le haβ hβv
          rw [if_pos ((Score.blt_iff_lt _ _).mpr hbltp)]
          have ha' : a.bmax (f a mv) = f a mv :=
            Score.bmax_eq_right (le_of_lt (lt_of_lt_of_le haβ hβv))
          rw [ha']
          rw [if_pos ((Score.ble_iff_le _ _).mpr hβv)]
          have hβT : β ≤ uFold u rest (u mv) := le_trans hβuc (le_uFold u rest (u mv))
          refine ⟨?_, fun _ => hβv, ?_⟩
          · intro hT
            have hαβ : α₀ < β := lt_trans (ha ▸ hU) haβ
            exact absurd (le_trans hβT hT) (not_le.mpr hαβ)
          · intro _ hTβ
            exact absurd hβT (not_le.mpr hTβ)


theorem minLoop_window (f : Score → Move → Score) (u : Move → Score) (α₀ β₀ : Score)
    (Hf : ∀ b mv, α₀ < b →
      ((u mv ≤ α₀ → f b mv ≤ α₀) ∧ (b ≤ u mv → b ≤ f b mv) ∧
        (α₀ < u mv → u mv < b → f b mv = u mv))) :
    ∀ (ms : List Move) (bestP : Score) (bmP : Option Move) (b bestU : Score),
      α₀ < b →
      ((β₀ ≤ bestU ∧ β₀ ≤ bestP ∧ b = β₀) ∨ (bestU < β₀ ∧ bestP = bestU ∧ b = bestU)) →
      ((dFold u ms bestU ≤ α₀ → (minLoop f α₀ true ms bestP bmP b).1 ≤ α₀) ∧
        (β₀ ≤ dFold u ms bestU → β₀ ≤ (minLoop f α₀ true ms bestP bmP b).1) ∧
        (α₀ < dFold u ms bestU → dFold u ms bestU < β₀ →
          (minLoop f α₀ true ms bestP bmP b).1 = dFold u ms bestU)) := by
  intro ms
  induction ms with
  | nil =>
    intro bestP bmP b bestU hαb hinv
    rcases hinv with ⟨hU, hP, hb⟩ | ⟨hU, hPU, hb⟩
    · refine ⟨?_, fun _ => hP, ?_⟩
      · intro hT
        exact absurd (le_trans hU hT) (not_le.mpr (hb ▸ hαb))
      · intro _ hT
        exact absurd hT (not_lt.mpr hU)
    · refine ⟨?_, ?_, ?_⟩
      · intro hT
        exact hPU ▸ hT
      · intro hT
        exact absurd hT (not_le.mpr hU)
      · intro _ _
        exact hPU
  | cons mv rest ih =>
    intro bestP bmP b bestU hαb hinv
    have hf3 := Hf b mv hαb
    rw [minLoop_cons, dFold]
    simp only [Bool.true_and, reduceIte]
    rcases hinv with ⟨hU, hP, hb⟩ | ⟨hU, hPU, hb⟩
    · by_cases hc1 : b ≤ u mv
      · have hbv : b ≤ f b mv := hf3.2.1 hc1
        have hbp' : β₀ ≤ (if ((f b mv).blt bestP) = true then f b mv else bestP) := by
          by_cases h : f b mv < bestP
          · rw [if_pos ((Score.blt_iff_lt _ _).mpr h)]
            exact le_trans (le_of_eq hb.symm) hbv
          · rw [if_neg (fun hh => h ((Score.blt_iff_lt _ _).mp hh))]
            exact hP
        have hu' : β₀ ≤ (if ((u mv).blt bestU) = true then u mv else bestU) := by
          by_cases h : u mv < bestU
          · rw [if_pos ((Score.blt_iff_lt _ _).mpr h)]
            exact le_trans (le_of_eq hb.symm) hc1
          · rw [if_neg (fun hh => h ((Score.blt_iff_lt _ _).mp hh))]
            exact hU
        have hb' : b.bmin (if ((f b mv).blt bestP) = true then f b mv else bestP) = b :=
          Score.bmin_eq_left (le_trans (le_of_eq hb) hbp')
        rw [hb']
        rw [if_neg (fun hh => absurd ((Score.ble_iff_le _ _).mp hh) (not_le.mpr hαb))]
        exact ih _ _ _ _ hαb (Or.inl ⟨hu', hbp', hb⟩)
      · have hucb : u mv < b := not_le.mp hc1
        have hbltu : u mv < bestU := lt_of_lt_of_le hucb (le_trans (le_of_eq hb) hU)
        rw [if_pos ((Score.blt_iff_lt _ _).mpr hbltu)]
        by_cases hc2 : α₀ < u mv
        · have hveq : f b mv = u mv := hf3.2.2 hc2 hucb
          have hbltp : f b mv < bestP :=
            lt_of_lt_of_le (hveq ▸ hucb) (le_trans (le_of_eq hb) hP)
          rw [if_pos ((Score.blt_iff_lt _ _).mpr hbltp)]
          have hb' : b.bmin (f b mv) = f b mv :=
            Score.bmin_eq_right (le_of_lt (hveq ▸ hucb))
          rw [hb']
          rw [if_neg (fun hh =>
            absurd ((Score.ble_iff_le _ _).mp hh) (not_le.mpr (hveq ▸ hc2)))]
          refine ih _ _ _ _ (hveq ▸ hc2)
            (Or.inr ⟨hb ▸ hucb, hveq, hveq⟩)
        · have hucα : u mv ≤ α₀ := not_lt.mp hc2
          have hvα : f b mv ≤ α₀ := hf3.1 hucα
          have hbltp : f b mv < bestP :=
            lt_of_le_of_lt hvα (lt_of_lt_of_le hαb (le_trans (le_of_eq hb) hP))
          rw [if_pos ((Score.blt_iff_lt _ _).mpr hbltp)]
          have hb' : b.bmin (f b mv) = f b mv :=
            Score.bmin_eq_right (le_of_lt (lt_of_le_of_lt hvα hαb))
          rw [hb']
          rw [if_pos ((Score.ble_iff_le _ _).mpr hvα)]
          have hTα : dFold u rest (u mv) ≤ α₀ := le_trans (dFold_le u rest (u mv)) hucα
          refine ⟨fun _ => hvα, ?_, ?_⟩
          · intro hT
            exact absurd (le_trans hT hTα) (not_le.mpr (hb ▸ hαb))
          · intro hT _
            exact absurd hT (not_lt.mpr hTα)
    · by_cases hc1 : b ≤ u mv
      · have hbv : b ≤ f b mv := hf3.2.1 hc1
        have hnbltp : ¬ f b mv < bestP :=
          not_lt.mpr (le_trans (le_of_eq (hPU.trans hb.symm)) hbv)
        have hnbltu : ¬ u mv < bestU := not_lt.mpr (le_trans (le_of_eq hb.symm) hc1)
        rw [if_neg (fun hh => hnbltp ((Score.blt_iff_lt _ _).mp hh))]
        rw [if_neg (fun hh => hnbltu ((Score.blt_iff_lt _ _).mp hh))]
        have hb' : b.bmin bestP = b := Score.bmin_eq_left (le_of_eq (hb.trans hPU.symm))
        rw [hb']
        rw [if_neg (fun hh => absurd ((Score.ble_iff_le _ _).mp hh) (not_le.mpr hαb))]
        exact ih _ _ _ _ hαb (Or.inr ⟨hU, hPU, hb⟩)
      · have hucb : u mv < b := not_le.mp hc1
        have hbltu : u mv < bestU := hb ▸ hucb
        rw [if_pos ((Score.blt_iff_lt _ _).mpr hbltu)]
        by_cases hc2 : α₀ < u mv
        · have hveq : f b mv = u mv := hf3.2.2 hc2 hucb
          have hbltp : f b mv < bestP := by
            rw [hPU, ← hb]
            exact hveq ▸ hucb
          rw [if_pos ((Score.blt_iff_lt _ _).mpr hbltp)]
          have hb' : b.bmin (f b mv) = f b mv :=
            Score.bmin_eq_right (le_of_lt (hveq ▸ hucb))
          rw [hb']
          rw [if_neg (fun hh =>
            absurd ((Score.ble_iff_le _ _).mp hh) (not_le.mpr (hveq ▸ hc2)))]
          refine ih _ _ _ _ (hveq ▸ hc2)
            (Or.inr ⟨lt_trans (hb ▸ hucb) hU, hveq, hveq⟩)
        · have hucα : u mv ≤ α₀ := not_lt.mp hc2
          have hvα : f b mv ≤ α₀ := hf3.1 hucα
          have hbltp : f b mv < bestP := by
            rw [hPU, ← hb]
            exact lt_of_le_of_lt hvα hαb
          rw [if_pos ((Score.blt_iff_lt _ _).mpr hbltp)]
          have hb' : b.bmin (f b mv) = f b mv :=
            Score.bmin_eq_right (le_of_lt (lt_of_le_of_lt hvα hαb))
          rw [hb']
          rw [if_pos ((Score.ble_iff_le _ _).mpr hvα)]
          have hTα : dFold u rest (u mv) ≤ α₀ := le_trans (dFold_le u rest (u mv)) hucα
          refine ⟨fun _ => hvα, ?_, ?_⟩
          · intro hT
            have hαβ : α₀ < β₀ := lt_trans (hb ▸ hαb) hU
            exact absurd (le_trans hT hTα) (not_le.mpr hαβ)
          · intro hT _
            exact absurd hT (not_lt.mpr hTα)


theorem Score.ninf_lt_fin (q : Int) : Score.ninf < Score.fin q := by
  simp [(· < ·), Score.blt, Score.ble]

theorem Score.fin_lt_pinf (q : Int) : Score.fin q < Score.pinf := by
  simp [(· < ·), Score.blt, Score.ble]

theorem minimax_zero (s : GameState) (α β : Score) (mp : Int) (ab : Bool) :
    minimax 0 s α β mp ab = (.fin (evaluateS s mp).1, none, (evaluateS s mp).2) := rfl

theorem minimax_succ_winner (d : Nat) (s : GameState) (α β : Score) (mp : Int) (ab : Bool)
    (hw : s.winner ≠ none) :
    minimax (d + 1) s α β mp ab = (.fin (evaluateS s mp).1, none, (evaluateS s mp).2) := by
  rw [minimax]
  rw [if_pos hw]

theorem minimax_succ_nomoves (d : Nat) (s : GameState) (α β : Score) (mp : Int) (ab : Bool)
    (hw : s.winner = none) (hmv : legal_moves s = []) :
    minimax (d + 1) s α β mp ab =
      (.fin (evaluate { clone s with winner := some (-(clone s).to_move) } mp), none, s) := by
  rw [minimax]
  rw [if_neg (not_not_intro hw)]
  dsimp only
  rw [if_pos hmv]

theorem minimax_succ_max (d : Nat) (s : GameState) (α β : Score) (mp : Int) (ab : Bool)
    (hw : s.winner = none) (hmv : ¬ legal_moves s = []) (htm : s.to_move = mp) :
    minimax (d + 1) s α β mp ab =
      ((maxLoop (fun a mv => (minimax d (apply_move (clone s) mv).1 a β mp ab).1)
          β ab (legal_moves s) .ninf none α).1,
        (maxLoop (fun a mv => (minimax d (apply_move (clone s) mv).1 a β mp ab).1)
          β ab (legal_moves s) .ninf none α).2, s) := by
  rw [minimax]
  rw [if_neg (not_not_intro hw)]
  dsimp only
  rw [if_neg hmv, if_pos htm]

theorem minimax_succ_min (d : Nat) (s : GameState) (α β : Score) (mp : Int) (ab : Bool)
    (hw : s.winner = none) (hmv : ¬ legal_moves s = []) (htm : ¬ s.to_move = mp) :
    minimax (d + 1) s α β mp ab =
      ((minLoop (fun b mv => (minimax d (apply_move (clone s) mv).1 α b mp ab).1)
          α ab (legal_moves s) .pinf none β).1,
        (minLoop (fun b mv => (minimax d (apply_move (clone s) mv).1 α b mp ab).1)
          α ab (legal_moves s) .pinf none β).2, s) := by
  rw [minimax]
  rw [if_neg (not_not_intro hw)]
  dsimp only
  rw [if_neg hmv, if_neg htm]

theorem maxLoop_false_pair (f g : Score → Move → Score) (β β' : Score) (a a' : Score)
    (h : ∀ mv, f a mv = g a' mv) :
    ∀ (ms : List Move) (best : Score) (bm : Option Move),
      maxLoop f β false ms best bm a = maxLoop g β' false ms best bm a' := by
  intro ms
  induction ms with
  | nil => intro best bm; rfl
  | cons mv rest ih =>
    intro best bm
    rw [maxLoop_cons, maxLoop_cons]
    simp only [Bool.false_and, if_neg (by simp : ¬ (false = true)), if_false, h mv]
    exact ih _ _

theorem minLoop_false_pair (f g : Score → Move → Score) (α α' : Score) (b b' : Score)
    (h : ∀ mv, f b mv = g b' mv) :
    ∀ (ms : List Move) (best : Score) (bm : Option Move),
      minLoop f α false ms best bm b = minLoop g α' false ms best bm b' := by
  intro ms
  induction ms with
  | nil => intro best bm; rfl
  | cons mv rest ih =>
    intro best bm
    rw [minLoop_cons, minLoop_cons]
    simp only [Bool.false_and, if_neg (by simp : ¬ (false = true)), if_false, h mv]
    exact ih _ _

theorem minimax_false_indep (d : Nat) :
    ∀ (s : GameState) (mp : Int) (α β α' β' : Score),
      minimax d s α β mp false = minimax d s α' β' mp false := by
  induction d with
  | zero => intro s mp α β α' β'; rfl
  | succ d ih =>
    intro s mp α β α' β'
    by_cases hw : s.winner = none
    · by_cases hmv : legal_moves s = []
      · rw [minimax_succ_nomoves d s α β mp false hw hmv,
          minimax_succ_nomoves d s α' β' mp false hw hmv]
      · by_cases htm : s.to_move = mp
        · rw [minimax_succ_max d s α β mp false hw hmv htm,
            minimax_succ_max d s α' β' mp false hw hmv htm]
          rw [maxLoop_false_pair
            (fun a mv => (minimax d (apply_move (clone s) mv).1 a β mp false).1)
            (fun a mv => (minimax d (apply_move (clone s) mv).1 a β' mp false).1)
            β β' α α' (fun mv => by dsimp only; rw [ih _ _ α β α' β'])]
        · rw [minimax_succ_min d s α β mp false hw hmv htm,
            minimax_succ_min d s α' β' mp false hw hmv htm]
          rw [minLoop_false_pair
            (fun b mv => (minimax d (apply_move (clone s) mv).1 α b mp false).1)
            (fun b mv => (minimax d (apply_move (clone s) mv).1 α' b mp false).1)
            α α' β β' (fun mv => by dsimp only; rw [ih _ _ α β α' β'])]
    · rw [minimax_succ_winner d s α β mp false hw,
        minimax_succ_winner d s α' β' mp false hw]


theorem maxLoop_fin (f : Score → Move → Score) (β : Score) (ab : Bool)
    (hf : ∀ a mv, ∃ q, f a mv = .fin q) :
    ∀ (ms : List Move) (best : Score) (bm : Option Move) (a : Score),
      (best = .ninf ∧ ms ≠ []) ∨ (∃ q, best = .fin q) →
      ∃ q, (maxLoop f β ab ms best bm a).1 = .fin q := by
  intro ms
  induction ms with
  | nil =>
    intro best bm a hinv
    rcases hinv with ⟨_, hne⟩ | ⟨q, hq⟩
    · exact absurd rfl hne
    · exact ⟨q, hq⟩
  | cons mv rest ih =>
    intro best bm a hinv
    rw [maxLoop_cons]
    obtain ⟨q, hq⟩ := hf a mv
    have hbest' : ∃ p, (if Score.blt best (f a mv) then f a mv else best) = Score.fin p := by
      rcases hinv with ⟨hn, _⟩ | ⟨p, hp⟩
      · rw [hn, hq, if_pos ((Score.blt_iff_lt _ _).mpr (Score.ninf_lt_fin q))]
        exact ⟨q, rfl⟩
      · by_cases hblt : Score.blt best (f a mv) = true
        · rw [if_pos hblt]; exact ⟨q, hq⟩
        · rw [if_neg hblt]; exact ⟨p, hp⟩
    obtain ⟨p, hp⟩ := hbest'
    rw [hp]
    cases ab with
    | false =>
      simp only [Bool.false_and, Bool.false_eq_true, reduceIte]
      exact ih _ _ _ (Or.inr ⟨p, rfl⟩)
    | true =>
      simp only [Bool.true_and, reduceIte]
      by_cases hstop : Score.ble β (Score.bmax a (Score.fin p)) = true
      · rw [if_pos hstop]
        exact ⟨p, rfl⟩
      · rw [if_neg hstop]
        exact ih _ _ _ (Or.inr ⟨p, rfl⟩)

theorem minLoop_fin (f : Score → Move → Score) (α : Score) (ab : Bool)
    (hf : ∀ b mv, ∃ q, f b mv = .fin q) :
    ∀ (ms : List Move) (best : Score) (bm : Option Move) (b : Score),
      (best = .pinf ∧ ms ≠ []) ∨ (∃ q, best = .fin q) →
      ∃ q, (minLoop f α ab ms best bm b).1 = .fin q := by
  intro ms
  induction ms with
  | nil =>
    intro best bm b hinv
    rcases hinv with ⟨_, hne⟩ | ⟨q, hq⟩
    · exact absurd rfl hne
    · exact ⟨q, hq⟩
  | cons mv rest ih =>
    intro best bm b hinv
    rw [minLoop_cons]
    obtain ⟨q, hq⟩ := hf b mv
    have hbest' : ∃ p, (if Score.blt (f b mv) best then f b mv else best) = Score.fin p := by
      rcases hinv with ⟨hn, _⟩ | ⟨p, hp⟩
      · rw [hn, hq, if_pos ((Score.blt_iff_lt _ _).mpr (Score.fin_lt_pinf q))]
        exact ⟨q, rfl⟩
      · by_cases hblt : Score.blt (f b mv) best = true
        · rw [if_pos hblt]; exact ⟨q, hq⟩
        · rw [if_neg hblt]; exact ⟨p, hp⟩
    obtain ⟨p, hp⟩ := hbest'
    rw [hp]
    cases ab with
    | false =>
      simp only [Bool.false_and, Bool.false_eq_true, reduceIte]
      exact ih _ _ _ (Or.inr ⟨p, rfl⟩)
    | true =>
      simp only [Bool.true_and, reduceIte]
      by_cases hstop : Score.ble (Score.bmin b (Score.fin p)) α = true
      · rw [if_pos hstop]
        exact ⟨p, rfl⟩
      · rw [if_neg hstop]
        exact ih _ _ _ (Or.inr ⟨p, rfl⟩)

theorem minimax_fin (d : Nat) :
    ∀ (s : GameState) (α β : Score) (mp : Int) (ab : Bool),
      ∃ q, (minimax d s α β mp ab).1 = .fin q := by
  induction d with
  | zero => intro s α β mp ab; exact ⟨(evaluateS s mp).1, rfl⟩
  | succ d ih =>
    intro s α β mp ab
    by_cases hw : s.winner = none
    · by_cases hmv : legal_moves s = []
      · rw [minimax_succ_nomoves d s α β mp ab hw hmv]
        exact ⟨_, rfl⟩
      · by_cases htm : s.to_move = mp
        · rw [minimax_succ_max d s α β mp ab hw hmv htm]
          exact maxLoop_fin _ β ab (fun a mv => ih _ _ _ _ _) _ _ _ _ (Or.inl ⟨rfl, hmv⟩)
        · rw [minimax_succ_min d s α β mp ab hw hmv htm]
          exact minLoop_fin _ α ab (fun b mv => ih _ _ _ _ _) _ _ _ _ (Or.inl ⟨rfl, hmv⟩)
    · rw [minimax_succ_winner d s α β mp ab hw]
      exact ⟨_, rfl⟩


theorem minimax_window (d : Nat) :
    ∀ (s : GameState) (mp : Int) (α β : Score), α < β →
      (((minimax d s .ninf .pinf mp false).1 ≤ α → (minimax d s α β mp true).1 ≤ α) ∧
        (β ≤ (minimax d s .ninf .pinf mp false).1 → β ≤ (minimax d s α β mp true).1) ∧
        (α < (minimax d s .ninf .pinf mp false).1 → (minimax d s .ninf .pinf mp false).1 < β →
          (minimax d s α β mp true).1 = (minimax d s .ninf .pinf mp false).1)) := by
  induction d with
  | zero =>
    intro s mp α β hαβ
    exact ⟨fun h => h, fun h => h, fun _ _ => rfl⟩
  | succ d ih =>
    intro s mp α β hαβ
    by_cases hw : s.winner = none
    · by_cases hmv : legal_moves s = []
      · have hPU : (minimax (d + 1) s α β mp true) = (minimax (d + 1) s .ninf .pinf mp false) := by
          rw [minimax_succ_nomoves d s α β mp true hw hmv,
            minimax_succ_nomoves d s .ninf .pinf mp false hw hmv]
        rw [hPU]
        exact ⟨fun h => h, fun h => h, fun _ _ => rfl⟩
      · by_cases htm : s.to_move = mp
        · have hU : (minimax (d + 1) s .ninf .pinf mp false).1 =
              uFold (fun mv => (minimax d (apply_move (clone s) mv).1 .ninf .pinf mp false).1)
                (legal_moves s) .ninf := by
            rw [minimax_succ_max d s .ninf .pinf mp false hw hmv htm]
            exact maxLoop_false_val _ _ _ _ _ _
          have hP : (minimax (d + 1) s α β mp true).1 =
              (maxLoop (fun a mv => (minimax d (apply_move (clone s) mv).1 a β mp true).1)
                β true (legal_moves s) .ninf none α).1 := by
            rw [minimax_succ_max d s α β mp true hw hmv htm]
          rw [hU, hP]
          exact maxLoop_window
            (fun a mv => (minimax d (apply_move (clone s) mv).1 a β mp true).1)
            (fun mv => (minimax d (apply_move (clone s) mv).1 .ninf .pinf mp false).1)
            β α
            (fun a mv haβ2 => ih (apply_move (clone s) mv).1 mp a β haβ2)
            (legal_moves s) .ninf none α .ninf hαβ
            (Or.inl ⟨Score.ninf_le _, Score.ninf_le _, rfl⟩)
        · have hU : (minimax (d + 1) s .ninf .pinf mp false).1 =
              dFold (fun mv => (minimax d (apply_move (clone s) mv).1 .ninf .pinf mp false).1)
                (legal_moves s) .pinf := by
            rw [minimax_succ_min d s .ninf .pinf mp false hw hmv htm]
            exact minLoop_false_val _ _ _ _ _ _
          have hP : (minimax (d + 1) s α β mp true).1 =
              (minLoop (fun b mv => (minimax d (apply_move (clone s) mv).1 α b mp true).1)
                α true (legal_moves s) .pinf none β).1 := by
            rw [minimax_succ_min d s α β mp true hw hmv htm]
          rw [hU, hP]
          exact minLoop_window
            (fun b mv => (minimax d (apply_move (clone s) mv).1 α b mp true).1)
            (fun mv => (minimax d (apply_move (clone s) mv).1 .ninf .pinf mp false).1)
            α β
            (fun b mv hab2 => ih (apply_move (clone s) mv).1 mp α b hab2)
            (legal_moves s) .pinf none β .pinf hαβ
            (Or.inl ⟨Score.le_pinf _, Score.le_pinf _, rfl⟩)
    · have hPU : (minimax (d + 1) s α β mp true) = (minimax (d + 1) s .ninf .pinf mp false) := by
        rw [minimax_succ_winner d s α β mp true hw,
          minimax_succ_winner d s .ninf .pinf mp false hw]
      rw [hPU]
      exact ⟨fun h => h, fun h => h, fun _ _ => rfl⟩


theorem Score.ninf_lt_pinf : Score.ninf < Score.pinf :=
  lt_trans (Score.ninf_lt_fin 0) (Score.fin_lt_pinf 0)

theorem Score.pinf_ble_eq_false {b : Score} (hb : b ≠ .pinf) : Score.ble .pinf b = false := by
  rw [Bool.eq_false_iff]
  intro h
  exact hb ((Score.pinf_le_iff b).mp ((Score.ble_iff_le _ _).mp h))

theorem Score.ble_ninf_eq_false {b : Score} (hb : b ≠ .ninf) : Score.ble b .ninf = false := by
  rw [Bool.eq_false_iff]
  intro h
  exact hb ((Score.le_ninf_iff b).mp ((Score.ble_iff_le _ _).mp h))

theorem maxLoop_full_eq (f g : Score → Move → Score) (u : Move → Score)
    (Hg : ∀ a mv, g a mv = u mv)
    (Hf : ∀ a mv, a < .pinf →
      ((u mv ≤ a → f a mv ≤ a) ∧ (.pinf ≤ u mv → .pinf ≤ f a mv) ∧
        (a < u mv → u mv < .pinf → f a mv = u mv)))
    (Hufin : ∀ mv, ∃ q, u mv = .fin q) :
    ∀ (ms : List Move) (best : Score) (bm : Option Move),
      (best = .ninf ∨ ∃ q, best = .fin q) →
      maxLoop f .pinf true ms best bm best = maxLoop g .pinf false ms best bm best := by
  intro ms
  induction ms with
  | nil => intro best bm _; rfl
  | cons mv rest ih =>
    intro best bm hbfin
    obtain ⟨q, hq⟩ := Hufin mv
    have hbp : best < Score.pinf := by
      rcases hbfin with h | ⟨p, h⟩
      · rw [h]; exact Score.ninf_lt_pinf
      · rw [h]; exact Score.fin_lt_pinf p
    by_cases hlt : best < u mv
    · have hfv : f best mv = u mv := (Hf best mv hbp).2.2 hlt (hq ▸ Score.fin_lt_pinf q)
      have hbltf : Score.blt best (f best mv) = true :=
        (Score.blt_iff_lt _ _).mpr (hfv ▸ hlt)
      have hbltg : Score.blt best (g best mv) = true :=
        (Score.blt_iff_lt _ _).mpr ((Hg best mv) ▸ hlt)
      rw [maxLoop_cons, maxLoop_cons]
      simp only [hbltf, hbltg, reduceIte, Bool.false_and, Bool.true_and,
        Bool.false_eq_true]
      have hmx : Score.bmax best (f best mv) = Score.fin q := by
        rw [hfv, hq]
        exact Score.bmax_eq_right (le_of_lt (hq ▸ hlt))
      have hstop : Score.ble .pinf (Score.bmax best (f best mv)) = false := by
        rw [hmx]
        exact Score.pinf_ble_eq_false (by simp)
      rw [hstop]
      simp only [Bool.false_eq_true, reduceIte, hmx, hfv, Hg best mv, hq]
      rw [maxLoop_false_pair g g .pinf .pinf best (Score.fin q)
        (fun mv2 => (Hg best mv2).trans (Hg (Score.fin q) mv2).symm)]
      rw [Score.bmax_eq_right (le_of_lt (hq ▸ hlt))]
      exact ih (Score.fin q) (some mv) (Or.inr ⟨q, rfl⟩)
    · have hfle : f best mv ≤ best := (Hf best mv hbp).1 (not_lt.mp hlt)
      have hbltf : Score.blt best (f best mv) = false := by
        rw [Bool.eq_false_iff]
        intro h
        exact absurd ((Score.blt_iff_lt _ _).mp h) (not_lt.mpr hfle)
      have hbltg : Score.blt best (g best mv) = false := by
        rw [Bool.eq_false_iff]
        intro h
        rw [Hg] at h
        exact hlt ((Score.blt_iff_lt _ _).mp h)
      rw [maxLoop_cons, maxLoop_cons]
      simp only [hbltf, hbltg, Bool.false_eq_true, reduceIte, Bool.false_and, Bool.true_and]
      have hmx : Score.bmax best best = best := Score.bmax_eq_left (le_refl best)
      have hstop : Score.ble .pinf (Score.bmax best best) = false := by
        rw [hmx]
        refine Score.pinf_ble_eq_false ?_
        rcases hbfin with h | ⟨p, h⟩ <;> simp [h]
      rw [hstop]
      simp only [Bool.false_eq_true, reduceIte, hmx]
      exact ih best bm hbfin

theorem minLoop_full_eq (f g : Score → Move → Score) (u : Move → Score)
    (Hg : ∀ b mv, g b mv = u mv)
    (Hf : ∀ b mv, .ninf < b →
      ((u mv ≤ .ninf → f b mv ≤ .ninf) ∧ (b ≤ u mv → b ≤ f b mv) ∧
        (.ninf < u mv → u mv < b → f b mv = u mv)))
    (Hufin : ∀ mv, ∃ q, u mv = .fin q) :
    ∀ (ms : List Move) (best : Score) (bm : Option Move),
      (best = .pinf ∨ ∃ q, best = .fin q) →
      minLoop f .ninf true ms best bm best = minLoop g .ninf false ms best bm best := by
  intro ms
  induction ms with
  | nil => intro best bm _; rfl
  | cons mv rest ih =>
    intro best bm hbfin
    obtain ⟨q, hq⟩ := Hufin mv
    have hbn : Score.ninf < best := by
      rcases hbfin with h | ⟨p, h⟩
      · rw [h]; exact Score.ninf_lt_pinf
      · rw [h]; exact Score.ninf_lt_fin p
    by_cases hlt : u mv < best
    · have hfv : f best mv = u mv := (Hf best mv hbn).2.2 (hq ▸ Score.ninf_lt_fin q) hlt
      have hbltf : Score.blt (f best mv) best = true :=
        (Score.blt_iff_lt _ _).mpr (hfv ▸ hlt)
      have hbltg : Score.blt (g best mv) best = true :=
        (Score.blt_iff_lt _ _).mpr ((Hg best mv) ▸ hlt)
      rw [minLoop_cons, minLoop_cons]
      simp only [hbltf, hbltg, reduceIte, Bool.false_and, Bool.true_and,
        Bool.false_eq_true]
      have hmn : Score.bmin best (f best mv) = Score.fin q := by
        rw [hfv, hq]
        exact Score.bmin_eq_right (le_of_lt (hq ▸ hlt))
      have hstop : Score.ble (Score.bmin best (f best mv)) .ninf = false := by
        rw [hmn]
        exact Score.ble_ninf_eq_false (by simp)
      rw [hstop]
      simp only [Bool.false_eq_true, reduceIte, hmn, hfv, Hg best mv, hq]
      rw [minLoop_false_pair g g .ninf .ninf best (Score.fin q)
        (fun mv2 => (Hg best mv2).trans (Hg (Score.fin q) mv2).symm)]
      rw [Score.bmin_eq_right (le_of_lt (hq ▸ hlt))]
      exact ih (Score.fin q) (some mv) (Or.inr ⟨q, rfl⟩)
    · have hfle : best ≤ f best mv := (Hf best mv hbn).2.1 (not_lt.mp hlt)
      have hbltf : Score.blt (f best mv) best = false := by
        rw [Bool.eq_false_iff]
        intro h
        exact absurd ((Score.blt_iff_lt _ _).mp h) (not_lt.mpr hfle)
      have hbltg : Score.blt (g best mv) best = false := by
        rw [Bool.eq_false_iff]
        intro h
        rw [Hg] at h
        exact hlt ((Score.blt_iff_lt _ _).mp h)
      rw [minLoop_cons, minLoop_cons]
      simp only [hbltf, hbltg, Bool.false_eq_true, reduceIte, Bool.false_and, Bool.true_and]
      have hmn : Score.bmin best best = best := Score.bmin_eq_left (le_refl best)
      have hstop : Score.ble (Score.bmin best best) .ninf = false := by
        rw [hmn]
        refine Score.ble_ninf_eq_false ?_
        rcases hbfin with h | ⟨p, h⟩ <;> simp [h]
      rw [hstop]
      simp only [Bool.false_eq_true, reduceIte, hmn]
      exact ih best bm hbfin


/-- C6: at the full window (alpha = -inf, beta = +inf), `minimax` with
alpha-beta pruning enabled returns the same score, the same best move and the
same threaded state as `minimax` with pruning disabled, for every depth, state
and maximizing player. -/
theorem c6_pruning_equivalence  (d : Nat) :
    ∀ (s : GameState) (mp : Int),
      minimax d s .ninf .pinf mp true = minimax d s .ninf .pinf mp false := by
  induction d with
  | zero => intro s mp; rfl
  | succ d ih =>
    intro s mp
    by_cases hw : s.winner = none
    · by_cases hmv : legal_moves s = []
      · rw [minimax_succ_nomoves d s .ninf .pinf mp true hw hmv,
          minimax_succ_nomoves d s .ninf .pinf mp false hw hmv]
      · by_cases htm : s.to_move = mp
        · rw [minimax_succ_max d s .ninf .pinf mp true hw hmv htm,
            minimax_succ_max d s .ninf .pinf mp false hw hmv htm]
          have hloops : maxLoop
              (fun a mv => (minimax d (apply_move (clone s) mv).1 a .pinf mp true).1)
              .pinf true (legal_moves s) .ninf none .ninf =
            maxLoop
              (fun a mv => (minimax d (apply_move (clone s) mv).1 a .pinf mp false).1)
              .pinf false (legal_moves s) .ninf none .ninf := by
            refine maxLoop_full_eq _ _
              (fun mv => (minimax d (apply_move (clone s) mv).1 .ninf .pinf mp false).1)
              ?_ ?_ ?_ (legal_moves s) .ninf none (Or.inl rfl)
            · intro a mv
              dsimp only
              rw [minimax_false_indep d _ mp a .pinf .ninf .pinf]
            · intro a mv hap
              exact minimax_window d (apply_move (clone s) mv).1 mp a .pinf hap
            · intro mv
              exact minimax_fin d _ _ _ _ _
          rw [hloops]
        · rw [minimax_succ_min d s .ninf .pinf mp true hw hmv htm,
            minimax_succ_min d s .ninf .pinf mp false hw hmv htm]
          have hloops : minLoop
              (fun b mv => (minimax d (apply_move (clone s) mv).1 .ninf b mp true).1)
              .ninf true (legal_moves s) .pinf none .pinf =
            minLoop
              (fun b mv => (minimax d (apply_move (clone s) mv).1 .ninf b mp false).1)
              .ninf false (legal_moves s) .pinf none .pinf := by
            refine minLoop_full_eq _ _
              (fun mv => (minimax d (apply_move (clone s) mv).1 .ninf .pinf mp false).1)
              ?_ ?_ ?_ (legal_moves s) .pinf none (Or.inl rfl)
            · intro b mv
              dsimp only
              rw [minimax_false_indep d _ mp .ninf b .ninf .pinf]
            · intro b mv hnb
              exact minimax_window d (apply_move (clone s) mv).1 mp .ninf b hnb
            · intro mv
              exact minimax_fin d _ _ _ _ _
          rw [hloops]
    · rw [minimax_succ_winner d s .ninf .pinf mp true hw,
        minimax_succ_winner d s .ninf .pinf mp false hw]


theorem evaluateS_state (s : GameState) (mp : Int) : (evaluateS s mp).2 = s := by
  unfold evaluateS
  dsimp only
  split_ifs <;> rfl

theorem minimax_state :
    ∀ (d : Nat) (s : GameState) (α β : Score) (mp : Int) (ab : Bool),
      (minimax d s α β mp ab).2.2 = s := by
  intro d s α β mp ab
  cases d with
  | zero => exact evaluateS_state s mp
  | succ d =>
    by_cases hw : s.winner = none
    · by_cases hmv : legal_moves s = []
      · rw [minimax_succ_nomoves d s α β mp ab hw hmv]
      · by_cases htm : s.to_move = mp
        · rw [minimax_succ_max d s α β mp ab hw hmv htm]
        · rw [minimax_succ_min d s α β mp ab hw hmv htm]
    · rw [minimax_succ_winner d s α β mp ab hw]
      exact evaluateS_state s mp

theorem choose_moveS_state (s : GameState) (difficulty : AIDifficulty) (coin : Bool)
    (pick fallback_pick : Nat) :
    (choose_moveS s difficulty coin pick fallback_pick).2 = s := by
  unfold choose_moveS
  dsimp only
  by_cases h1 : legal_moves s = []
  · rw [if_pos h1]
  · rw [if_neg h1]
    by_cases h2 : (difficulty.allow_random && coin) = true
    · rw [if_pos h2]
    · rw [if_neg h2]
      cases hsc : (minimax difficulty.depth s .ninf .pinf s.to_move
          difficulty.use_alpha_beta).2.1 with
      | none =>
        simp only [hsc]
        exact minimax_state _ _ _ _ _ _
      | some mv =>
        simp only [hsc]
        exact minimax_state _ _ _ _ _ _

/-- C9: `hint` returns the state it was given, bit for bit: the evaluator's
temporary reassignments of `to_move` are rolled back and no board, counter,
flag, winner or stack component is modified. -/
theorem c9_hint_preserves_state  (s : GameState) (difficulty : AIDifficulty) (coin : Bool)
    (pick fallback_pick : Nat) :
    (hintS s difficulty coin pick fallback_pick).2 = s :=
  choose_moveS_state s difficulty coin pick fallback_pick


/-- C3: amended characterisation. `forms_mill board idx player` is true iff SOME
mill line through `idx` has every other cell occupied by `player` (the Python
loop returns at the first such line). -/
theorem c3_forms_mill_exists_line  (board : List Int) (idx : Nat) (player : Int) :
    forms_mill board idx player = true ↔
      ∃ t ∈ MILLS, idx ∈ lineOf t ∧
        ∀ q ∈ lineOf t, q ≠ idx → boardGet board q = player := by
  unfold forms_mill
  rw [List.any_eq_true]
  constructor
  · rintro ⟨t, ht, hcond⟩
    simp only [Bool.and_eq_true, decide_eq_true_eq, List.all_eq_true] at hcond
    obtain ⟨⟨hidx, hall⟩, _⟩ := hcond
    refine ⟨t, ht, hidx, fun q hq hne => ?_⟩
    have h2 := hall q hq
    rw [if_pos hne] at h2
    exact beq_iff_eq.mp h2
  · rintro ⟨t, ht, hidx, hall⟩
    refine ⟨t, ht, ?_⟩
    simp only [Bool.and_eq_true, decide_eq_true_eq, List.all_eq_true]
    refine ⟨⟨hidx, fun q hq => ?_⟩, fun q hq => ?_⟩
    · by_cases hne : q ≠ idx
      · rw [if_pos hne]
        exact beq_iff_eq.mpr (hall q hq hne)
      · rw [if_neg hne]
    · by_cases hqe : q = idx
      · simp only [Bool.or_eq_true, decide_eq_true_eq]
        exact Or.inl hqe
      · simp only [Bool.or_eq_true, decide_eq_true_eq, beq_iff_eq]
        exact Or.inr (hall q hq hqe)

theorem find_isNone_not_any (l : List α) (p : α → Bool) :
    (l.find? p).isNone = !(l.any p) := by
  induction l with
  | nil => rfl
  | cons x xs ih =>
    rw [List.find?_cons, List.any_cons]
    cases h : p x
    · simp only [h, Bool.false_or]
      exact ih
    · simp only [h, Bool.true_or, Option.isNone_some, Bool.not_true]

theorem isNone_map (f : α → β) (o : Option α) : (o.map f).isNone = o.isNone := by
  cases o <;> rfl

theorem pim_isNone (board : List Int) (i : Nat) :
    (positions_in_mill board i).isNone = !(inFormedMill board i) := by
  unfold positions_in_mill inFormedMill
  by_cases hE : boardGet board i = EMPTY
  · rw [if_pos hE]
    simp [hE]
  · rw [if_neg hE]
    have hne : (boardGet board i != EMPTY) = true := by
      simp [bne_iff_ne, hE]
    rw [hne, Bool.true_and]
    rw [isNone_map]
    rw [find_isNone_not_any]
    congr 1
    congr 1
    funext t
    simp only [lineOf, List.all_cons, List.all_nil, Bool.and_true, Bool.and_assoc]

/-- C7: `legal_removals` computes exactly the spec's removable-target policy:
opponent stones outside formed mills when any exist, otherwise all opponent
stones, and the empty list when the opponent has none on the board. -/
theorem c7_legal_removals_policy  (board : List Int) (opponent : Int) :
    legal_removals board opponent = removable_targets board opponent := by
  unfold legal_removals removable_targets opponentPositions
  dsimp only
  have hfilter :
      ((List.range board.length).filter fun i => boardGet board i == opponent).filter
        (fun i => (positions_in_mill board i).isNone) =
      ((List.range board.length).filter fun i => boardGet board i == opponent).filter
        (fun i => !(inFormedMill board i)) :=
    List.filter_congr (fun i _ => pim_isNone board i)
  by_cases hop : ((List.range board.length).filter fun i => boardGet board i == opponent) = []
  · rw [if_pos hop, hop]
    simp
  · rw [if_neg hop, hfilter]


/-- C1: code bug. In `c1state` (capture pending for white; black has a formed
mill at 0-1-2 and a stray stone at 3) the legal removal set is exactly [3], yet
`apply_move` accepts removing the stone at 0, which sits inside the mill:
`apply_move` never checks the removal target against `legal_removals`. -/
theorem c1_removal_validation_bug  :
    c1state.removal_pending = true ∧
    legal_removals c1state.board PLAYER_BLACK = [3] ∧
    0 ∉ legal_removals c1state.board PLAYER_BLACK ∧
    (apply_move c1state (removeMove 0)).2 = true := by decide

/-- C2: counterexample to the claim as written. After place-then-undo the redo
stack is nonempty; a failed `apply_move` then clears it (the pre-validation
`push_history` empties the redo stack and the snapshot pop does not restore it),
so the state is not left entirely unchanged. -/
theorem c2_redo_clobber_cex  :
    c2s2.redo_stack ≠ [] ∧ (apply_move c2s2 c2bad).2 = false ∧
    (apply_move c2s2 c2bad).1.redo_stack ≠ c2s2.redo_stack := by decide

/-- C8: code bug. A 26-move trace of successful `apply_move` calls (black's
18th placement completes a mill exactly when both hands empty, the phase switch
is skipped, and the code keeps accepting placements while the capture is
pending) reaches a full board with `legal_moves = []` but `winner = none`. -/
theorem c8_stalemate_without_winner  :
    ∃ s : GameState, runMoves initState c8trace = some s ∧ s.winner = none ∧
      legal_moves s = [] :=
  ⟨(runMoves initState c8trace).getD initState, by decide, by decide, by decide⟩

/-- C10: `apply_move` never reads the move's `player` field: changing it
changes neither the success flag nor the resulting state. -/
theorem c10_player_field_ignored  (s : GameState) (m : Move) (p : Int) :
    apply_move s { m with player := p } = apply_move s m := by
  cases m
  rfl

/-- C3: counterexample to the every-line reading. On a board whose only stones
are two white ones at 1 and 2, `forms_mill` at 0 for white returns true because
line 0-1-2 qualifies, although line 0-9-21 containing 0 is not fully white. -/
theorem c3_every_line_reading_cex  : forms_mill c3board 0 1 = true ∧ ¬ everyLineFull c3board 0 1 := by
  unfold everyLineFull
  decide

/-- C2: amended frame property. When `apply_move` fails, the board, phase,
side-to-move, hands, pending flag, winner and undo history are unchanged, but
the events list and the redo stack are cleared (unless the winner guard failed
first, in which case nothing at all changes). -/
theorem c2_failed_apply_frame  (s : GameState) (m : Move) :
    (apply_move s m).2 = false →
    (apply_move s m).1 =
      if s.winner = none then { s with events := [], redo_stack := [] } else s := by
  rcases m with ⟨mp, mf, mt, mr⟩
  cases hw : s.winner with
  | some w =>
    intro _
    simp [apply_move, hw]
  | none =>
    rw [if_pos rfl]
    rcases mr with _ | r <;> cases hp : s.removal_pending <;>
      cases hph : s.phase <;> rcases mt with _ | t <;> rcases mf with _ | f <;>
      simp only [apply_move, push_history, pop_history, hp, hph, hw,
        ne_eq, not_true_eq_false, not_false_eq_true, reduceIte, reduceCtorEq] <;>
      first
        | (split_ifs <;> first | (intro _; rfl) | (intro h; simp at h))
        | (intro _; rfl)
        | (intro h; simp at h)

/-- C2 witness: the frame theorem applied to the initial state and a malformed
place move (no target index), whose application fails. -/
theorem c2_failed_apply_frame_witness :
    (apply_move initState c2bad).1 =
      (if initState.winner = none then { initState with events := [], redo_stack := [] }
       else initState) :=
  c2_failed_apply_frame initState c2bad (by decide)

/-- C5: after a successful `apply_move`, `undo` succeeds and restores every
snapshot component (board, phase, side-to-move, hands, pending flag, winner) of
the pre-move state, and `redo` right after succeeds and restores the post-move
values of those components. -/
theorem c5_undo_redo_roundtrip  (s : GameState) (m : Move) (h : (apply_move s m).2 = true) :
    (undo (apply_move s m).1).2 = true ∧
    mkSnap (undo (apply_move s m).1).1 = mkSnap s ∧
    (redo (undo (apply_move s m).1).1).2 = true ∧
    mkSnap (redo (undo (apply_move s m).1).1).1 = mkSnap (apply_move s m).1 := by
  obtain ⟨hh, hr⟩ := apply_move_success_stacks s m h
  have h1 : undo (apply_move s m).1 =
      ({ restoreSnap (apply_move s m).1 (mkSnap s) with
          history := s.history,
          redo_stack := mkSnap (apply_move s m).1 :: (apply_move s m).1.redo_stack }, true) := by
    unfold undo; rw [hh]
  rw [hr] at h1
  have h2 : redo (undo (apply_move s m).1).1 =
      ({ restoreSnap (undo (apply_move s m).1).1 (mkSnap (apply_move s m).1) with
          history := mkSnap (undo (apply_move s m).1).1 :: (undo (apply_move s m).1).1.history,
          redo_stack := [] }, true) := by
    rw [h1]; rfl
  refine ⟨by rw [h1], by rw [h1]; rfl, by rw [h2], by rw [h2]; rfl⟩

/-- C5 witness: the round-trip applied to white's opening placement at 0 from
the initial state. -/
theorem c5_undo_redo_roundtrip_witness :
    (undo (apply_move initState (placeMove 0)).1).2 = true ∧
    mkSnap (undo (apply_move initState (placeMove 0)).1).1 = mkSnap initState ∧
    (redo (undo (apply_move initState (placeMove 0)).1).1).2 = true ∧
    mkSnap (redo (undo (apply_move initState (placeMove 0)).1).1).1 =
      mkSnap (apply_move initState (placeMove 0)).1 :=
  c5_undo_redo_roundtrip initState (placeMove 0) (by decide)

end Morris
